import Mathlib

/-!
# tags-api: a verification development

A shallow embedding of the request handlers of `handlers/media.go` and
`handlers/tags.go`, and theorems about them.

Strings are sequences of runes (`String`, i.e. `List Char`): Go's `regexp`
decodes its input rune by rune, and a byte that is not valid UTF-8 is seen as
the single rune U+FFFD, which is neither whitespace nor an allowed character.

What lies outside the repository is modelled as follows.

* The store is a state of three tables with the constraints that the source
  declares (`gorm:"unique"` on `Tag.Name` and `Media.URL`, the keys of
  `gorm.Model`, the join table of `many2many:media_tags`).  A statement fails
  exactly when a constraint refuses it; a reading query always answers.
* SHA-256, the scanner of JSON texts, the parser of times, the clock and the
  outcome of writing a file are parameters (`Lib`, `Env`); the decoding of a
  JSON value into a `Tag` follows `encoding/json`.
* A handler maps a request and a world to a response and a world; requests are
  served one after the other, and writing the response does not fail.
-/

namespace TagsApi

/-! ## Filename sanitizer (`handlers/media.go`, `sanitizeString`) -/

/-- The class `\s` of Go's `regexp` syntax: `[\t\n\f\r ]`.  The vertical tab
(U+000B) and the Unicode spaces are not in it. -/
def isSpace (c : Char) : Bool :=
  c == '\t' || c == '\n' || c == '\x0c' || c == '\r' || c == ' '

/-- The complement of the class `[^a-zA-Z0-9_.-]`. -/
def isAllowed (c : Char) : Bool :=
  ('a'.toNat ≤ c.toNat && c.toNat ≤ 'z'.toNat) ||
  ('A'.toNat ≤ c.toNat && c.toNat ≤ 'Z'.toNat) ||
  ('0'.toNat ≤ c.toNat && c.toNat ≤ '9'.toNat) ||
  c == '_' || c == '.' || c == '-'

/-- The scan of `` regexp.MustCompile(`\s+`).ReplaceAllString(name, "_") ``:
`inMatch` tells whether the rune before belongs to the match in progress.  A
match starts at the first whitespace rune, is extended greedily over the
whitespace runes that follow, and is replaced by one underscore; every rune
outside a match is copied. -/
def replaceSpaceRuns : Bool → List Char → List Char
  | _, [] => []
  | inMatch, c :: cs =>
    if isSpace c then
      if inMatch then replaceSpaceRuns true cs else '_' :: replaceSpaceRuns true cs
    else c :: replaceSpaceRuns false cs

/-- The effect of `` regexp.MustCompile(`[^a-zA-Z0-9_.-]`).ReplaceAllString(name, "") ``:
every rune of the negated class is a match of length one and is replaced by
nothing. -/
def removeDisallowed (cs : List Char) : List Char :=
  cs.filter isAllowed

/-- The function `sanitizeString`: the two replacements, in the order of the
source. -/
def sanitizeString (name : String) : String :=
  let name : String := ⟨replaceSpaceRuns false name.data⟩
  let name : String := ⟨removeDisallowed name.data⟩
  name

/-- The property `c` is an ASCII letter, an ASCII digit, `_`, `.` or `-`. -/
def SafeChar (c : Char) : Prop :=
  ('a' ≤ c ∧ c ≤ 'z') ∨ ('A' ≤ c ∧ c ≤ 'Z') ∨ ('0' ≤ c ∧ c ≤ '9') ∨
    c = '_' ∨ c = '.' ∨ c = '-'

/-- The sanitizer as the specification words it, in one pass over the input:
a maximal run of whitespace becomes one underscore, an allowed character is
kept, any other character is deleted. -/
def sanitizeSpec : List Char → List Char
  | [] => []
  | c :: cs =>
    if isSpace c then '_' :: sanitizeSpec (cs.dropWhile isSpace)
    else if isAllowed c then c :: sanitizeSpec cs
    else sanitizeSpec cs
termination_by cs => cs.length
decreasing_by
  all_goals simp_wf
  · exact Nat.lt_succ_of_le (List.dropWhile_sublist _).length_le

instance : DecidablePred SafeChar := fun c => by
  unfold SafeChar
  infer_instance

/-! ## Unique filename generator (`handlers/media.go`, `generateUniqueFilename`) -/

/-- The value of `hash.Sum(nil)` for a fresh SHA-256 hash: a digest of 32
bytes. -/
structure Digest where
  bytes : List Nat
  size : bytes.length = 32

/-- The digit table of `encoding/hex`. -/
def hextable : List Char := "0123456789abcdef".data

/-- The function `hex.EncodeToString`: for each byte `v`, the digits
`hextable[v >> 4]` and `hextable[v & 0x0f]`. -/
def hexEncode : List Nat → List Char
  | [] => []
  | v :: vs =>
    hextable.getD (v % 256 / 16) '0' :: hextable.getD (v % 16) '0' :: hexEncode vs

/-- A JSON value as `encoding/json` scans it.  `nat n` is a number written
with digits only; `num` is any other number (signed, fractional or with an
exponent). -/
inductive JSON where
  | null
  | bool (b : Bool)
  | nat (n : Nat)
  | num
  | str (s : String)
  | arr (elems : List JSON)
  | obj (fields : List (String × JSON))

/-- The library functions the handlers call and whose code is not part of the
repository.  `sha256` is `crypto/sha256` on the bytes of a string.  `parseJSON`
is the scanner of `encoding/json`: the value that a text holds, `none` when
the text is not JSON.  `parseTime` tells whether a string is a time of RFC
3339, as `time.Time.UnmarshalJSON` requires.  `parse_empty` records that the
empty input is not JSON (`unexpected end of JSON input`). -/
structure Lib where
  sha256 : String → Digest
  parseJSON : String → Option JSON
  parseTime : String → Bool
  parse_empty : parseJSON "" = none

/-- What a request finds around it: `now` is `time.Now().String()`, and
`writable p` tells whether the upload directory can be made and the file `p`
created and written in full. -/
structure Env where
  now : String
  writable : String → Bool

/-- The function `generateUniqueFilename`: the hexadecimal SHA-256 digest of
the name followed by the current time. -/
def generateUniqueFilename (L : Lib) (e : Env) (name : String) : String :=
  ⟨hexEncode (L.sha256 (name ++ e.now)).bytes⟩

/-! ## Paths (`path/filepath`, Unix) -/

/-- The elements of a path: the runs between separators, empty ones included. -/
def splitPath : List Char → List (List Char)
  | [] => [[]]
  | c :: cs =>
    if c = '/' then [] :: splitPath cs
    else
      match splitPath cs with
      | [] => [[c]]
      | x :: xs => (c :: x) :: xs

/-- The loop of `filepath.Clean` over the elements of the path; `out` holds the
elements written so far, the last one first.  An empty element and `.` are
dropped; `..` removes the element before it, unless there is none or it is
itself `..`, in which case it is kept on a path that is not rooted and dropped
on a rooted one. -/
def cleanElems (rooted : Bool) : List (List Char) → List (List Char) → List (List Char)
  | out, [] => out.reverse
  | out, el :: els =>
    if el = [] ∨ el = ['.'] then cleanElems rooted out els
    else if el = ['.', '.'] then
      match out with
      | top :: rest =>
        if top = ['.', '.'] then cleanElems rooted (el :: out) els
        else cleanElems rooted rest els
      | [] => if rooted then cleanElems rooted [] els else cleanElems rooted [el] els
    else cleanElems rooted (el :: out) els

/-- The function `filepath.Clean`. -/
def filepathClean (path : List Char) : List Char :=
  if path = [] then ['.']
  else
    let rooted := path.head? = some '/'
    let out := (if rooted then ['/'] else []) ++
      List.intercalate ['/'] (cleanElems rooted [] (splitPath path))
    if out = [] then ['.'] else out

/-- The function `filepath.Join` on two elements: empty elements are ignored
and the result is cleaned. -/
def filepathJoin (a b : String) : String :=
  if a ≠ "" then ⟨filepathClean (a.data ++ '/' :: b.data)⟩
  else if b ≠ "" then ⟨filepathClean b.data⟩
  else ""

/-! ## The store (`gorm` on the tables `tags`, `media`, `media_tags`) -/

/-- A row of `tags`, and the Go value `Tag`.  Of `gorm.Model` the identifier
and the soft-delete mark are kept (`Deleted` is `DeletedAt.Valid`); the
creation and update times play no part in the handlers. -/
structure Tag where
  ID : Nat
  Name : String
  Deleted : Bool
deriving DecidableEq, Repr

/-- A row of `media`. -/
structure MediaRow where
  ID : Nat
  Name : String
  URL : String
  Deleted : Bool
deriving DecidableEq, Repr

/-- The Go value `Media`, with its tags loaded.  `File` is never stored nor
encoded. -/
structure Media where
  ID : Nat
  Name : String
  Tags : List Tag
  URL : String
deriving DecidableEq, Repr

/-- The three tables; a row of `media_tags` is `(media_id, tag_id)`. -/
structure DB where
  tags : List Tag
  media : List MediaRow
  media_tags : List (Nat × Nat)
deriving DecidableEq, Repr

/-! ## Decoding a tag (`encoding/json` on the type `Tag`) -/

/-- The zero value of `Tag`. -/
def zeroTag : Tag :=
  { ID := 0, Name := "", Deleted := false }

/-- One key of a JSON object stored into a `Tag`.  The fields are `name` (the
tag of `Tag.Name`) and, from `gorm.Model`, `ID`, `CreatedAt`, `UpdatedAt` and
`DeletedAt`; a key matches a field whatever the case of its letters, and a key
that matches no field is skipped.  `null` leaves a field as it is.  `Name`
takes a string, `ID` a number of digits that fits 64 bits, the three times a
string that is a time; `DeletedAt` then marks the tag as deleted.  Any other
value is an error (`none`). -/
def setField (L : Lib) (t : Tag) (key : String) (v : JSON) : Option Tag :=
  let k := key.data.map Char.toLower
  if k = "name".data then
    match v with
    | JSON.null => some t
    | JSON.str s => some { t with Name := s }
    | _ => none
  else if k = "id".data then
    match v with
    | JSON.null => some t
    | JSON.nat n => if n < 2 ^ 64 then some { t with ID := n } else none
    | _ => none
  else if k = "createdat".data ∨ k = "updatedat".data then
    match v with
    | JSON.null => some t
    | JSON.str s => if L.parseTime s then some t else none
    | _ => none
  else if k = "deletedat".data then
    match v with
    | JSON.null => some t
    | JSON.str s => if L.parseTime s then some { t with Deleted := true } else none
    | _ => none
  else some t

/-- The keys of an object stored into a `Tag`, in their order. -/
def setFields (L : Lib) : Tag → List (String × JSON) → Option Tag
  | t, [] => some t
  | t, (key, v) :: rest =>
    match setField L t key v with
    | some t1 => setFields L t1 rest
    | none => none

/-- A JSON value stored into a `Tag`: `null` leaves the tag as it is, an
object sets its fields, any other value is an error. -/
def decodeTagValue (L : Lib) (t : Tag) : JSON → Option Tag
  | JSON.null => some t
  | JSON.obj fields => setFields L t fields
  | _ => none

/-- The elements of a JSON array stored into tags. -/
def decodeTagElems (L : Lib) : List JSON → Option (List Tag)
  | [] => some []
  | j :: js =>
    match decodeTagValue L zeroTag j with
    | some t =>
      match decodeTagElems L js with
      | some ts => some (t :: ts)
      | none => none
    | none => none

/-- A JSON value stored into a `[]Tag`: `null` gives no tag, an array gives
its elements, any other value is an error. -/
def decodeTagsValue (L : Lib) : JSON → Option (List Tag)
  | JSON.null => some []
  | JSON.arr elems => decodeTagElems L elems
  | _ => none

/-- The call `json.NewDecoder(r.Body).Decode(&tag)` on a zero `tag`: the
decoded tag, `none` for a non-nil error. -/
def Lib.decodeTag (L : Lib) (body : String) : Option Tag :=
  match L.parseJSON body with
  | some j => decodeTagValue L zeroTag j
  | none => none

/-- The call `json.Unmarshal([]byte(s), &tags)`, of whose result the handler
reads the names: `none` for a non-nil error. -/
def Lib.unmarshalTags (L : Lib) (s : String) : Option (List String) :=
  match L.parseJSON s with
  | some j =>
    match decodeTagsValue L j with
    | some ts => some (ts.map Tag.Name)
    | none => none
  | none => none

/-- An identifier the table has not used: one more than the largest. -/
def nextID (ids : List Nat) : Nat :=
  ids.foldr max 0 + 1

/-- The row with the least identifier (`ORDER BY id LIMIT 1`). -/
def minByID : List Tag → Option Tag
  | [] => none
  | t :: ts =>
    match minByID ts with
    | none => some t
    | some u => if t.ID ≤ u.ID then some t else some u

/-- The query `db.Where("name = ?", name).First(&tag)`: the first live tag of
that name, `none` for `gorm.ErrRecordNotFound`. -/
def DB.firstTagByName (db : DB) (name : String) : Option Tag :=
  minByID (db.tags.filter (fun t => !t.Deleted && t.Name == name))

/-- The statement `db.Create(&Tag{Name: name})`.  The column `name` is
`unique`, and the index covers soft-deleted rows too: the insert is refused
(`none`) when any row has the name.  Otherwise the row is added under a fresh
identifier and returned. -/
def DB.createTag (db : DB) (name : String) : Option (Tag × DB) :=
  if db.tags.any (fun t => t.Name == name) then none
  else
    let t : Tag := { ID := nextID (db.tags.map Tag.ID), Name := name, Deleted := false }
    some (t, { db with tags := db.tags ++ [t] })

/-- The statement `db.Create(&tag)` for a decoded tag: the value is inserted as
it is, with its identifier when the body gave one (not zero) and with its
soft-delete mark, and under a fresh identifier otherwise.  The insert is
refused (`none`) when any row has the name (`unique`) or when a row has the
identifier given (primary key). -/
def DB.create (db : DB) (tag : Tag) : Option (Tag × DB) :=
  if db.tags.any (fun t => t.Name == tag.Name) then none
  else if tag.ID ≠ 0 ∧ db.tags.any (fun t => t.ID == tag.ID) then none
  else
    let t : Tag :=
      { tag with ID := if tag.ID = 0 then nextID (db.tags.map Tag.ID) else tag.ID }
    some (t, { db with tags := db.tags ++ [t] })

/-- The rows of `media_tags` after `INSERT ... ON CONFLICT DO NOTHING` of the
pairs of one media with each of its tags. -/
def linkTags (mediaID : Nat) : List (Nat × Nat) → List Tag → List (Nat × Nat)
  | rows, [] => rows
  | rows, t :: ts =>
    if (mediaID, t.ID) ∈ rows then linkTags mediaID rows ts
    else linkTags mediaID (rows ++ [(mediaID, t.ID)]) ts

/-- The statement `db.Create(&newMedia)` for a media whose tags the handler
has looked up or tried to insert.  It runs in one transaction and is refused
(`none`, nothing written) when the `unique` column `URL` already holds the
path, or when a tag is not a row of `tags` (the foreign key of `media_tags`;
this is the case of a tag whose own insert was refused and that still has the
zero identifier).  Otherwise the row is added under a fresh identifier, with
one row of `media_tags` per distinct tag. -/
def DB.createMedia (db : DB) (name url : String) (tags : List Tag) : Option (Media × DB) :=
  if db.media.any (fun m => m.URL == url) then none
  else if tags.any (fun t => !(db.tags.any (fun u => u.ID == t.ID))) then none
  else
    let id := nextID (db.media.map MediaRow.ID)
    let row : MediaRow := { ID := id, Name := name, URL := url, Deleted := false }
    some ({ ID := id, Name := name, Tags := tags, URL := url },
      { db with media := db.media ++ [row], media_tags := linkTags id db.media_tags tags })

/-- The clause `Preload("Tags")` for one media: its live tags. -/
def DB.tagsOf (db : DB) (mediaID : Nat) : List Tag :=
  db.tags.filter (fun t => !t.Deleted && decide ((mediaID, t.ID) ∈ db.media_tags))

/-- A row of `media` as the Go value, tags loaded. -/
def DB.load (db : DB) (m : MediaRow) : Media :=
  { ID := m.ID, Name := m.Name, Tags := db.tagsOf m.ID, URL := m.URL }

/-- The query `db.Preload("Tags").Find(&medias)`: the live media. -/
def DB.findMedia (db : DB) : List Media :=
  (db.media.filter (fun m => !m.Deleted)).map db.load

/-- The query `db.Joins("JOIN media_tags ON media_tags.media_id = media.id")
.Where("media_tags.tag_id = ?", tagID).Preload("Tags").Find(&medias)`: one
result per pair of a live media and a row of `media_tags` that links it to
`tagID`. -/
def DB.findMediaByTag (db : DB) (tagID : Nat) : List Media :=
  ((db.media.filter (fun m => !m.Deleted)).flatMap (fun m =>
    (db.media_tags.filter (fun j => j.1 == m.ID && j.2 == tagID)).map (fun _ => m))).map db.load

/-- The query `db.Find(&tags)`: the live tags. -/
def DB.findTags (db : DB) : List Tag :=
  db.tags.filter (fun t => !t.Deleted)

/-- The store and the files written under the upload directory. -/
structure World where
  db : DB
  files : List String
deriving DecidableEq, Repr

/-! ## Requests and responses (`net/http`) -/

/-- The multipart form after `r.ParseMultipartForm` returned no error: the
fields of the body (`r.MultipartForm.Value`) and, for `r.FormFile("File")`, the
file name of the part (`none` when there is no such part). -/
structure FormData where
  Value : List (String × String)
  File : Option String
deriving DecidableEq, Repr

/-- A request: `Query` is `r.URL.Query()`, `Form` is `none` when
`r.ParseMultipartForm` returns an error. -/
structure Request where
  Method : String
  Path : String
  Query : List (String × String)
  Body : String
  Form : Option FormData
deriving DecidableEq, Repr

/-- The method `Get` of `url.Values`, and `r.FormValue`: the first value of the
key, the empty string when the key is absent. -/
def getValue (vs : List (String × String)) (key : String) : String :=
  match vs.find? (fun kv => kv.1 == key) with
  | some kv => kv.2
  | none => ""

/-- The method `r.FormValue` after `r.ParseMultipartForm`: `r.Form` holds the
values of the query followed by the fields of the body, and the first value of
the key is returned. -/
def formValue (r : Request) (form : FormData) (key : String) : String :=
  getValue (r.Query ++ form.Value) key

/-- What is written as the body of a response. -/
inductive Payload where
  | nothing
  | text (s : String)
  | tag (t : Tag)
  | tags (ts : List Tag)
  | medium (m : Media)
  | media (ms : List Media)
deriving DecidableEq, Repr

/-- A response: status code, `Allow` header, body. -/
structure Response where
  Code : Nat
  Allow : Option String
  Body : Payload
deriving DecidableEq, Repr

/-- The function `http.Error`: the message and a newline, as plain text. -/
def httpError (msg : String) (code : Nat) : Response :=
  { Code := code, Allow := none, Body := Payload.text (msg ++ "\n") }

/-- The function `http.NotFound`. -/
def httpNotFound : Response :=
  httpError "404 page not found" 404

/-! ## `strconv.ParseUint` -/

/-- The digits of a base-10 number, most significant first, added to `acc`;
`none` at a character that is not a digit. -/
def parseDigits : List Char → Nat → Option Nat
  | [], acc => some acc
  | c :: cs, acc =>
    if '0'.toNat ≤ c.toNat ∧ c.toNat ≤ '9'.toNat then
      parseDigits cs (acc * 10 + (c.toNat - '0'.toNat))
    else none

/-- The function `strconv.ParseUint(s, 10, bitSize)`: a syntax error on the
empty string and on any character that is not a digit, a range error on a
value of more than `bitSize` bits. -/
def ParseUint (s : String) (bitSize : Nat) : Option Nat :=
  if s = "" then none
  else
    match parseDigits s.data 0 with
    | none => none
    | some n => if n < 2 ^ bitSize then some n else none

/-- The function `strconv.FormatUint(n, 10)`, which the tests use to write a
tag identifier into the query: the decimal digits of `n`. -/
def FormatUint (n : Nat) : String :=
  ⟨Nat.toDigits 10 n⟩

/-! ## File store (`handlers/media.go`, `saveFileToDisk`) -/

/-- The directory of `saveFileToDisk`. -/
def uploadDir : String := "../static/uploads"

/-- The function `saveFileToDisk`: the path of the file under the upload
directory, and the world with the file written; `none` when making the
directory, creating the file or copying fails (what a failed write leaves on
disk is not tracked). -/
def saveFileToDisk (e : Env) (w : World) (filename : String) : Option (String × World) :=
  let filePath := filepathJoin uploadDir filename
  if e.writable filePath then some (filePath, { w with files := filePath :: w.files })
  else none

/-! ## Handler of `/v1/tags` (`handlers/tags.go`) -/

/-- The handler `Tags`.  Reading queries do not fail on a store state, so the
branch `Failed to fetch tags` has no counterpart. -/
def Tags (L : Lib) (r : Request) (w : World) : Response × World :=
  if r.Path ≠ "/v1/tags" then (httpNotFound, w)
  else if r.Method = "GET" then
    ({ Code := 200, Allow := none, Body := Payload.tags w.db.findTags }, w)
  else if r.Method = "POST" then
    match L.decodeTag r.Body with
    | none => (httpError "Invalid input" 400, w)
    | some tag =>
      match w.db.firstTagByName tag.Name with
      | some _ => (httpError "Tag with this name already exists" 409, w)
      | none =>
        match w.db.create tag with
        | none => (httpError "Failed to create tag" 500, w)
        | some (t, db1) =>
          ({ Code := 201, Allow := none, Body := Payload.tag t }, { w with db := db1 })
  else if r.Method = "OPTIONS" then
    ({ Code := 204, Allow := some "GET, POST, OPTIONS", Body := Payload.nothing }, w)
  else
    ({ httpError "method not allowed" 405 with Allow := some "GET, POST, OPTIONS" }, w)

/-! ## Handler of `/v1/media` (`handlers/media.go`) -/

/-- The loop over the decoded tags in `AllMedia`: a name with a live tag gives
that tag; otherwise a tag is inserted, and when the store refuses the insert
the error is not looked at and the tag keeps the zero identifier.  The lookup
does not fail on a store state, so the branch `Error processing tags` has no
counterpart. -/
def resolveTags (db : DB) : List String → DB × List Tag
  | [] => (db, [])
  | n :: ns =>
    match db.firstTagByName n with
    | some existingTag =>
      let rest := resolveTags db ns
      (rest.1, existingTag :: rest.2)
    | none =>
      match db.createTag n with
      | some (newTag, db1) =>
        let rest := resolveTags db1 ns
        (rest.1, newTag :: rest.2)
      | none =>
        let rest := resolveTags db ns
        (rest.1, { ID := 0, Name := n, Deleted := false } :: rest.2)

/-- The handler `AllMedia`.  Reading queries do not fail on a store state, so
the branches `Failed to fetch media` have no counterpart. -/
def AllMedia (L : Lib) (e : Env) (r : Request) (w : World) : Response × World :=
  if r.Path ≠ "/v1/media" then (httpNotFound, w)
  else if r.Method = "GET" then
    let tagIDStr := getValue r.Query "tag"
    if tagIDStr ≠ "" then
      match ParseUint tagIDStr 32 with
      | none => (httpError "Invalid tag ID" 400, w)
      | some tagID =>
        ({ Code := 200, Allow := none, Body := Payload.media (w.db.findMediaByTag tagID) }, w)
    else
      ({ Code := 200, Allow := none, Body := Payload.media w.db.findMedia }, w)
  else if r.Method = "POST" then
    match r.Form with
    | none => (httpError "File too large or invalid input" 400, w)
    | some form =>
      let name := formValue r form "Name"
      if name = "" then (httpError "Name is required" 400, w)
      else
        match form.File with
        | none => (httpError "File is required" 400, w)
        | some orgFilename =>
          let cleanName := sanitizeString name
          let filename := generateUniqueFilename L e cleanName ++ "_" ++ sanitizeString orgFilename
          match saveFileToDisk e w filename with
          | none => (httpError "Error saving file" 500, w)
          | some (filePath, w1) =>
            match L.unmarshalTags (formValue r form "Tags") with
            | none => (httpError "Invalid tags format" 400, w1)
            | some tags =>
              let resolved := resolveTags w1.db tags
              match resolved.1.createMedia name filePath resolved.2 with
              | none => (httpError "Error saving media" 500, { w1 with db := resolved.1 })
              | some (newMedia, db2) =>
                ({ Code := 201, Allow := none, Body := Payload.medium newMedia },
                  { w1 with db := db2 })
  else if r.Method = "OPTIONS" then
    ({ Code := 204, Allow := some "GET, POST, OPTIONS", Body := Payload.nothing }, w)
  else
    ({ httpError "method not allowed" 405 with Allow := some "GET, POST, OPTIONS" }, w)

/-! ## Handler of `/v1` (`handlers/index.go`) and the routes of `main.go` -/

/-- The handler `Index`. -/
def Index (r : Request) (w : World) : Response × World :=
  if r.Path ≠ "/v1" then (httpNotFound, w)
  else if r.Method = "GET" then
    ({ Code := 200, Allow := none,
       Body := Payload.text "With more time I'd return a detailed API spec here." }, w)
  else if r.Method = "OPTIONS" then
    ({ Code := 204, Allow := some "GET, OPTIONS", Body := Payload.nothing }, w)
  else
    ({ httpError "method not allowed" 405 with Allow := some "GET, OPTIONS" }, w)

/-- The routes of `main`: each of the three patterns matches its path exactly.
A request for any other path reaches no handler and leaves the world as it is;
the mux answers it itself (here with `http.NotFound`). -/
def serve (L : Lib) (e : Env) (r : Request) (w : World) : Response × World :=
  if r.Path = "/v1" then Index r w
  else if r.Path = "/v1/tags" then Tags L r w
  else if r.Path = "/v1/media" then AllMedia L e r w
  else (httpNotFound, w)

/-- The world after a sequence of requests, each served at its own moment. -/
def run (L : Lib) : World → List (Env × Request) → World
  | w, [] => w
  | w, (e, r) :: rest => run L (serve L e r w).2 rest

/-! ## Properties of store states -/

/-- The primary keys of the three tables: no two rows of `tags` or of `media`
share an identifier, and no row of `media_tags` is repeated. -/
def DB.KeysOK (db : DB) : Prop :=
  (db.tags.map Tag.ID).Nodup ∧ (db.media.map MediaRow.ID).Nodup ∧ db.media_tags.Nodup

instance (db : DB) : Decidable db.KeysOK := by
  unfold DB.KeysOK
  infer_instance

/-- The invariant of the specification: no two live tags share a name. -/
def DB.LiveNamesUnique (db : DB) : Prop :=
  ((db.tags.filter (fun t => !t.Deleted)).map Tag.Name).Nodup

instance (db : DB) : Decidable db.LiveNamesUnique := by
  unfold DB.LiveNamesUnique
  infer_instance

/-! ## Sample data -/

/-- A stand-in for the library on the sample requests: a constant digest, and
the scanner on the texts used below (`none` elsewhere). -/
def sampleLib : Lib where
  sha256 := fun _ => ⟨(List.range 32).map (fun i => 7 * i + 3), by decide⟩
  parseJSON := fun s =>
    if s = "\x7b\"name\":\"tag1\"\x7d" then some (JSON.obj [("name", JSON.str "tag1")])
    else if s = "\x7b\"name\":\"tag2\"\x7d" then some (JSON.obj [("name", JSON.str "tag2")])
    else if s = "[\x7b\"name\":\"tag1\"\x7d,\x7b\"name\":\"tag2\"\x7d]" then
      some (JSON.arr [JSON.obj [("name", JSON.str "tag1")], JSON.obj [("name", JSON.str "tag2")]])
    else if s = "[\x7b\"name\":\"tag1\"\x7d,\x7b\"name\":\"tag1\"\x7d]" then
      some (JSON.arr [JSON.obj [("name", JSON.str "tag1")], JSON.obj [("name", JSON.str "tag1")]])
    else if s = "[]" then some (JSON.arr [])
    else if s = "null" then some JSON.null
    else if s = "\x7b\x7d" then some (JSON.obj [])
    else if s = "\x7b\"name\":\"\"\x7d" then some (JSON.obj [("name", JSON.str "")])
    else if s = "\x7b\"ID\":4,\"name\":\"tag2\"\x7d" then
      some (JSON.obj [("ID", JSON.nat 4), ("name", JSON.str "tag2")])
    else if s = "\x7b\"name\":\"tag2\",\"DeletedAt\":\"2020-01-01T00:00:00Z\"\x7d" then
      some (JSON.obj [("name", JSON.str "tag2"), ("DeletedAt", JSON.str "2020-01-01T00:00:00Z")])
    else none
  parseTime := fun s => s == "2020-01-01T00:00:00Z"
  parse_empty := rfl

/-- A moment at which every file can be written. -/
def sampleEnv : Env :=
  { now := "2024-05-01 10:00:00.000000001 +0000 UTC", writable := fun _ => true }

/-- A moment at which no file can be written. -/
def fullDiskEnv : Env :=
  { now := "2024-05-01 10:00:00.000000001 +0000 UTC", writable := fun _ => false }

/-- The empty store, nothing uploaded. -/
def emptyWorld : World :=
  { db := { tags := [], media := [], media_tags := [] }, files := [] }

/-- The upload of `TestCreateMedia`: name `media1`, tags `tag1` and `tag2`,
file `bg.png`. -/
def sampleUpload : Request :=
  { Method := "POST", Path := "/v1/media", Query := [], Body := "",
    Form := some (FormData.mk
      [("Name", "media1"), ("Tags", "[\x7b\"name\":\"tag1\"\x7d,\x7b\"name\":\"tag2\"\x7d]")]
      (some "bg.png")) }

/-- A store with one live tag `tag1` and nothing else. -/
def oneTagWorld : World :=
  { db := { tags := [{ ID := 4, Name := "tag1", Deleted := false }], media := [],
            media_tags := [] },
    files := [] }

/-- The store of `TestGetMediaByTag`: `media1` has `tag2`, `media2` has `tag3`,
`media3` has `tag3` and `tag1`. -/
def threeMediaWorld : World :=
  { db :=
      { tags := [{ ID := 1, Name := "tag1", Deleted := false },
                 { ID := 2, Name := "tag2", Deleted := false },
                 { ID := 3, Name := "tag3", Deleted := false }],
        media := [{ ID := 1, Name := "media1", URL := "../static/uploads/fgggff5fgf_bg.png",
                    Deleted := false },
                  { ID := 2, Name := "media2", URL := "../static/uploads/fgggttggf_bg.png",
                    Deleted := false },
                  { ID := 3, Name := "media3", URL := "../static/uploads/fgeerggf_bg.png",
                    Deleted := false }],
        media_tags := [(1, 2), (2, 3), (3, 3), (3, 1)] },
    files := [] }

/-- The request `GET /v1/media?tag=v`. -/
def getMediaByTag (v : String) : Request :=
  { Method := "GET", Path := "/v1/media", Query := [("tag", v)], Body := "", Form := none }

/-- An upload with a name and a file and no `Tags` field. -/
def noTagsUpload : Request :=
  { Method := "POST", Path := "/v1/media", Query := [], Body := "",
    Form := some (FormData.mk [("Name", "media1")] (some "bg.png")) }

/-- The request `POST /v1/tags` with the given body. -/
def postTag (body : String) : Request :=
  { Method := "POST", Path := "/v1/tags", Query := [], Body := body, Form := none }

/-- An upload whose `Tags` field names `tag1` twice. -/
def repeatedTagUpload : Request :=
  { Method := "POST", Path := "/v1/media", Query := [], Body := "",
    Form := some (FormData.mk
      [("Name", "media2"), ("Tags", "[\x7b\"name\":\"tag1\"\x7d,\x7b\"name\":\"tag1\"\x7d]")]
      (some "photo 1.jpg")) }

/-- A sequence of requests: an upload that names a tag twice, the creation of
that tag and of another one, and a second upload. -/
def sampleSession : List (Env × Request) :=
  [(sampleEnv, repeatedTagUpload),
   (sampleEnv, postTag "\x7b\"name\":\"tag1\"\x7d"),
   (sampleEnv, postTag "\x7b\"name\":\"tag2\"\x7d"),
   (fullDiskEnv, sampleUpload),
   (sampleEnv, sampleUpload)]

/-- The request with the given method and path, and nothing else. -/
def bareRequest (method path : String) : Request :=
  { Method := method, Path := path, Query := [], Body := "", Form := none }

/-- The sample library, under the name used where a body without a name is
decoded. -/
def emptyNameLib : Lib :=
  sampleLib

/-- The sample library with a digest that depends on every character of its
input (a stand-in for SHA-256, not SHA-256). -/
def foldLib : Lib :=
  { sampleLib with
    sha256 := fun s =>
      ⟨(List.range 32).map (fun i => s.data.foldl (fun a c => (a * 31 + c.toNat + i) % 256) i),
        by simp⟩ }

/-- A moment one nanosecond after `sampleEnv`. -/
def laterEnv : Env :=
  { now := "2024-05-01 10:00:00.000000002 +0000 UTC", writable := fun _ => true }

/-- An upload whose `Tags` field is the JSON text `null`. -/
def nullTagsUpload : Request :=
  { Method := "POST", Path := "/v1/media", Query := [], Body := "",
    Form := some (FormData.mk [("Name", "media1"), ("Tags", "null")] (some "bg.png")) }

/-- An upload to `/v1/media?Name=media1` whose body has no `Name` field. -/
def queryNameUpload : Request :=
  { Method := "POST", Path := "/v1/media", Query := [("Name", "media1")], Body := "",
    Form := some (FormData.mk [("Tags", "[]")] (some "bg.png")) }

/-- The shape that the specification asks of the `Tags` field: a JSON array
whose elements are objects. -/
def IsTagArray (j : JSON) : Prop :=
  ∃ elems, j = JSON.arr elems ∧ ∀ x ∈ elems, ∃ fields, x = JSON.obj fields

/-! ## Theorems -/

theorem isAllowed_iff_safeChar (c : Char) : isAllowed c = true ↔ SafeChar c := by
  unfold isAllowed SafeChar
  simp only [Bool.or_eq_true, Bool.and_eq_true, decide_eq_true_eq, beq_iff_eq,
    Char.le_def, or_assoc]
  rfl

theorem sanitizeString_data (s : String) :
    (sanitizeString s).data = (replaceSpaceRuns false s.data).filter isAllowed := rfl

theorem isAllowed_of_mem_sanitizeString (s : String) (c : Char)
    (hc : c ∈ (sanitizeString s).data) : isAllowed c = true := by
  rw [sanitizeString_data] at hc
  exact List.of_mem_filter hc

/-- C1: every character of `sanitizeString s` is an ASCII letter, an ASCII
digit, `_`, `.` or `-`. -/
theorem sanitizeString_safe (s : String) : ∀ c ∈ (sanitizeString s).data, SafeChar c :=
  fun c hc => (isAllowed_iff_safeChar c).1 (isAllowed_of_mem_sanitizeString s c hc)

theorem sanitizeString_safe_witness :
    '_' ∈ (sanitizeString "my  file\t(1).png").data ∧ SafeChar '_' :=
  ⟨by decide, sanitizeString_safe "my  file\t(1).png" '_' (by decide)⟩

theorem replaceSpaceRuns_true (cs : List Char) :
    replaceSpaceRuns true cs = replaceSpaceRuns false (cs.dropWhile isSpace) := by
  induction cs with
  | nil => rfl
  | cons c cs ih =>
    by_cases hc : isSpace c = true
    · simp [replaceSpaceRuns, List.dropWhile, hc, ih]
    · simp [replaceSpaceRuns, List.dropWhile, hc]

theorem filter_replaceSpaceRuns (n : Nat) :
    ∀ cs : List Char, cs.length ≤ n →
      (replaceSpaceRuns false cs).filter isAllowed = sanitizeSpec cs := by
  induction n with
  | zero =>
    intro cs h
    have : cs = [] := List.length_eq_zero.1 (Nat.le_zero.1 h)
    subst this
    simp [replaceSpaceRuns, sanitizeSpec]
  | succ n ih =>
    intro cs h
    cases cs with
    | nil => simp [replaceSpaceRuns, sanitizeSpec]
    | cons c cs =>
      have hlen : cs.length ≤ n := Nat.le_of_succ_le_succ h
      cases hc : isSpace c with
      | true =>
        have hd : (cs.dropWhile isSpace).length ≤ n :=
          Nat.le_trans (List.dropWhile_sublist _).length_le hlen
        have hu : isAllowed '_' = true := by decide
        rw [sanitizeSpec]
        simp only [replaceSpaceRuns, hc, if_true, replaceSpaceRuns_true, Bool.false_eq_true,
          if_false, List.filter_cons, hu]
        rw [ih _ hd]
      | false =>
        rw [sanitizeSpec]
        simp only [replaceSpaceRuns, hc, Bool.false_eq_true, if_false, List.filter_cons]
        rw [ih _ hlen]

/-- C2: `sanitizeString s` is `s` with each maximal run of whitespace (the
class `\s`: tab, line feed, form feed, carriage return, space) replaced by one
underscore, every other character outside letters, digits, `_`, `.`, `-`
deleted, and the allowed characters kept in their order. -/
theorem sanitizeString_eq_spec (s : String) :
    (sanitizeString s).data = sanitizeSpec s.data := by
  rw [sanitizeString_data]
  exact filter_replaceSpaceRuns s.data.length s.data (Nat.le_refl _)

theorem filter_replaceSpaceRuns_eq_nil (cs : List Char) :
    (replaceSpaceRuns false cs).filter isAllowed = [] ↔
      ∀ c ∈ cs, isSpace c = false ∧ isAllowed c = false := by
  induction cs with
  | nil => simp [replaceSpaceRuns]
  | cons c cs ih =>
    cases hc : isSpace c with
    | true =>
      have hu : isAllowed '_' = true := by decide
      simp [replaceSpaceRuns, hc, List.filter_cons, hu]
    | false =>
      cases ha : isAllowed c with
      | true => simp [replaceSpaceRuns, hc, List.filter_cons, ha]
      | false =>
        simp only [replaceSpaceRuns, hc, Bool.false_eq_true, if_false, List.filter_cons, ha,
          ih, List.mem_cons, forall_eq_or_imp, and_self, true_and]

/-- C3, as stated, fails: the string of one space has no valid character and
is sanitized to one underscore. -/
theorem sanitizeString_space_counterexample :
    (∀ c ∈ " ".data, ¬ SafeChar c) ∧ sanitizeString " " = "_" ∧ sanitizeString " " ≠ "" := by
  decide

/-- C3, amended: `sanitizeString ""` is the empty string, and for a string
with no valid character `sanitizeString s` is the empty string exactly when
`s` has no whitespace character either. -/
theorem sanitizeString_no_valid (s : String) (h : ∀ c ∈ s.data, ¬ SafeChar c) :
    sanitizeString "" = "" ∧
      (sanitizeString s = "" ↔ ∀ c ∈ s.data, isSpace c = false) := by
  refine ⟨by decide, ?_⟩
  rw [String.ext_iff, sanitizeString_data]
  show _ = [] ↔ _
  rw [filter_replaceSpaceRuns_eq_nil]
  constructor
  · intro h1 c hc
    exact (h1 c hc).1
  · intro h1 c hc
    refine ⟨h1 c hc, ?_⟩
    have := h c hc
    rw [← isAllowed_iff_safeChar] at this
    simpa using this

theorem sanitizeString_no_valid_witness :
    (∀ c ∈ "(%é)".data, ¬ SafeChar c) ∧ (sanitizeString "" = "" ∧
      (sanitizeString "(%é)" = "" ↔ ∀ c ∈ "(%é)".data, isSpace c = false)) :=
  ⟨by decide, sanitizeString_no_valid "(%é)" (by decide)⟩

/-! ### The stored path -/

theorem hexEncode_length (bs : List Nat) : (hexEncode bs).length = 2 * bs.length := by
  induction bs with
  | nil => rfl
  | cons b bs ih => simp only [hexEncode, List.length_cons, ih]; omega

theorem hextable_getD_mem (i : Nat) : hextable.getD i '0' ∈ hextable := by
  by_cases h : i < 16
  · interval_cases i <;> decide
  · have : hextable.length ≤ i := by
      have : hextable.length = 16 := by decide
      omega
    rw [List.getD_eq_default _ _ this]
    decide

theorem hexEncode_mem (bs : List Nat) : ∀ c ∈ hexEncode bs, c ∈ hextable := by
  induction bs with
  | nil => intro c hc; cases hc
  | cons b bs ih =>
    intro c hc
    simp only [hexEncode, List.mem_cons] at hc
    rcases hc with rfl | rfl | hc
    · exact hextable_getD_mem _
    · exact hextable_getD_mem _
    · exact ih c hc

theorem generateUniqueFilename_length (L : Lib) (e : Env) (name : String) :
    (generateUniqueFilename L e name).length = 64 := by
  show (hexEncode _).length = 64
  rw [hexEncode_length, (L.sha256 _).size]

theorem splitPath_of_not_mem (cs : List Char) (h : '/' ∉ cs) : splitPath cs = [cs] := by
  induction cs with
  | nil => rfl
  | cons c cs ih =>
    have hc : c ≠ '/' := fun hc => h (by simp [hc])
    have hcs : '/' ∉ cs := fun hcs => h (List.mem_cons_of_mem _ hcs)
    simp [splitPath, hc, ih hcs]

theorem splitPath_append (a b : List Char) (h : '/' ∉ a) :
    splitPath (a ++ '/' :: b) = a :: splitPath b := by
  induction a with
  | nil => simp [splitPath]
  | cons c cs ih =>
    have hc : c ≠ '/' := fun hc => h (by simp [hc])
    have hcs : '/' ∉ cs := fun hcs => h (List.mem_cons_of_mem _ hcs)
    simp [splitPath, hc, ih hcs]

theorem filepathClean_upload (fn : List Char) (h1 : '/' ∉ fn) (h2 : fn ≠ [])
    (h3 : fn ≠ ['.']) (h4 : fn ≠ ['.', '.']) :
    filepathClean (uploadDir.data ++ '/' :: fn) = uploadDir.data ++ '/' :: fn := by
  have e : uploadDir.data ++ '/' :: fn =
      ['.', '.'] ++ '/' :: ("static".data ++ '/' :: ("uploads".data ++ '/' :: fn)) := rfl
  have hs : splitPath (uploadDir.data ++ '/' :: fn) =
      [['.', '.'], "static".data, "uploads".data, fn] := by
    rw [e, splitPath_append _ _ (by decide), splitPath_append _ _ (by decide),
      splitPath_append _ _ (by decide), splitPath_of_not_mem _ h1]
  have hne : uploadDir.data ++ '/' :: fn ≠ [] := by simp
  have hhead : (uploadDir.data ++ '/' :: fn).head? = some '.' := rfl
  unfold filepathClean
  rw [if_neg hne]
  simp only [hs, hhead]
  have hr : ¬ (some '.' = some '/') := by decide
  simp only [hr, decide_False, Bool.false_eq_true, if_false, List.nil_append]
  have hc : cleanElems false [] [['.', '.'], "static".data, "uploads".data, fn] =
      [['.', '.'], "static".data, "uploads".data, fn] := by
    have n1 : ¬ ("static".data = [] ∨ "static".data = ['.']) := by decide
    have n2 : ¬ ("static".data = ['.', '.']) := by decide
    have n3 : ¬ ("uploads".data = [] ∨ "uploads".data = ['.']) := by decide
    have n4 : ¬ ("uploads".data = ['.', '.']) := by decide
    have n5 : ¬ (['.', '.'] = ([] : List Char) ∨ ['.', '.'] = ['.']) := by decide
    have n6 : ¬ (fn = [] ∨ fn = ['.']) := by
      rintro (h | h)
      · exact h2 h
      · exact h3 h
    simp only [cleanElems, n1, n2, n3, n4, n5, n6, h4, if_false, if_true, Bool.false_eq_true,
      List.reverse_cons, List.reverse_nil, List.nil_append, List.cons_append]
  rw [hc]
  have hi : List.intercalate ['/'] [['.', '.'], "static".data, "uploads".data, fn] =
      uploadDir.data ++ '/' :: fn := by
    simp [List.intercalate, List.intersperse, uploadDir]
  rw [hi, if_neg hne]

/-! ### The upload path of `AllMedia` -/

/-- What a response with status 201 of `AllMedia` tells: the request is a
`POST` to `/v1/media` whose form has a name and a file, the file was written,
the tags were decoded and resolved, and the media row was inserted. -/
theorem AllMedia_created (L : Lib) (e : Env) (r : Request) (w : World)
    (h : (AllMedia L e r w).1.Code = 201) :
    ∃ form f tags m db2,
      r.Path = "/v1/media" ∧ r.Method = "POST" ∧ r.Form = some form ∧
      formValue r form "Name" ≠ "" ∧ form.File = some f ∧
      e.writable (filepathJoin uploadDir
        (generateUniqueFilename L e (sanitizeString (formValue r form "Name")) ++ "_" ++
          sanitizeString f)) = true ∧
      L.unmarshalTags (formValue r form "Tags") = some tags ∧
      (resolveTags w.db tags).1.createMedia (formValue r form "Name")
        (filepathJoin uploadDir
          (generateUniqueFilename L e (sanitizeString (formValue r form "Name")) ++ "_" ++
            sanitizeString f)) (resolveTags w.db tags).2 = some (m, db2) ∧
      AllMedia L e r w =
        ({ Code := 201, Allow := none, Body := Payload.medium m },
          World.mk db2 (filepathJoin uploadDir
            (generateUniqueFilename L e (sanitizeString (formValue r form "Name")) ++ "_" ++
              sanitizeString f) :: w.files)) := by
  by_cases hp : r.Path = "/v1/media"
  swap
  · simp [AllMedia, hp, httpNotFound, httpError] at h
  by_cases hg : r.Method = "GET"
  · simp only [AllMedia, hp, hg, ne_eq, not_true_eq_false, if_false, if_true] at h
    split at h
    · split at h <;> simp [httpError] at h
    · simp at h
  by_cases hm : r.Method = "POST"
  swap
  · simp only [AllMedia, hp, hg, hm, ne_eq, not_true_eq_false, if_false] at h
    split at h <;> simp [httpError] at h
  cases hform : r.Form with
  | none => simp [AllMedia, hp, hm, hform, httpError] at h
  | some form =>
    by_cases hn : formValue r form "Name" = ""
    · simp [AllMedia, hp, hm, hform, hn, httpError] at h
    cases hfile : form.File with
    | none => simp [AllMedia, hp, hm, hform, hn, hfile, httpError] at h
    | some f =>
      cases hw : e.writable (filepathJoin uploadDir
        (generateUniqueFilename L e (sanitizeString (formValue r form "Name")) ++ "_" ++
          sanitizeString f)) with
      | false =>
        simp [AllMedia, hp, hm, hform, hn, hfile, saveFileToDisk, hw, httpError] at h
      | true =>
        cases ht : L.unmarshalTags (formValue r form "Tags") with
        | none =>
          simp [AllMedia, hp, hm, hform, hn, hfile, saveFileToDisk, hw, ht, httpError] at h
        | some tags =>
          cases hc : (resolveTags w.db tags).1.createMedia (formValue r form "Name")
            (filepathJoin uploadDir
              (generateUniqueFilename L e (sanitizeString (formValue r form "Name")) ++ "_" ++
                sanitizeString f)) (resolveTags w.db tags).2 with
          | none =>
            simp [AllMedia, hp, hm, hform, hn, hfile, saveFileToDisk, hw, ht, hc, httpError] at h
          | some res =>
            obtain ⟨m, db2⟩ := res
            refine ⟨form, f, tags, m, db2, hp, hm, rfl, hn, hfile, hw, ht, hc, ?_⟩
            simp [AllMedia, hp, hm, hform, hn, hfile, saveFileToDisk, hw, ht, hc]

theorem createMedia_some (db : DB) (name url : String) (tags : List Tag) (m : Media) (db2 : DB)
    (h : db.createMedia name url tags = some (m, db2)) :
    m = { ID := nextID (db.media.map MediaRow.ID), Name := name, Tags := tags, URL := url } ∧
    db2.tags = db.tags ∧
    db2.media = db.media ++
      [{ ID := nextID (db.media.map MediaRow.ID), Name := name, URL := url, Deleted := false }] ∧
    db2.media_tags = linkTags (nextID (db.media.map MediaRow.ID)) db.media_tags tags ∧
    (∀ t ∈ tags, ∃ u ∈ db.tags, u.ID = t.ID) ∧ (∀ row ∈ db.media, row.URL ≠ url) := by
  unfold DB.createMedia at h
  split at h
  · cases h
  split at h
  · cases h
  rename_i h1 h2
  simp only [Option.some.injEq, Prod.mk.injEq] at h
  obtain ⟨rfl, rfl⟩ := h
  refine ⟨rfl, rfl, rfl, rfl, ?_, ?_⟩
  · intro t ht
    simp only [List.any_eq_true, Bool.not_eq_true', not_exists, not_and] at h2
    have := h2 t ht
    simp only [Bool.not_eq_false, List.any_eq_true, beq_iff_eq] at this
    exact this
  · intro row hrow hurl
    apply h1
    simp only [List.any_eq_true, beq_iff_eq]
    exact ⟨row, hrow, hurl⟩

theorem uploadName_not_mem (L : Lib) (e : Env) (name f : String) :
    '/' ∉ (generateUniqueFilename L e name ++ "_" ++ sanitizeString f).data := by
  intro h
  simp only [String.data_append, List.mem_append] at h
  rcases h with (h | h) | h
  · have := hexEncode_mem _ _ h
    revert this
    decide
  · revert h
    decide
  · have := isAllowed_of_mem_sanitizeString f _ h
    revert this
    decide

/-- C4: a `POST /v1/media` answered with 201 stores the media under the upload
directory `../static/uploads` joined with the file name `h ++ "_" ++
sanitizeString f`, where `f` is the uploaded file name and `h` is the 64
lowercase hexadecimal digits of a SHA-256 digest; the file name has no path
separator, so the path is the directory, one separator, and the file name. -/
theorem AllMedia_stored_path (L : Lib) (e : Env) (r : Request) (w : World)
    (h : (AllMedia L e r w).1.Code = 201) :
    ∃ form f m,
      r.Method = "POST" ∧ r.Path = "/v1/media" ∧ r.Form = some form ∧ form.File = some f ∧
      (AllMedia L e r w).1.Body = Payload.medium m ∧
      (∃ row ∈ (AllMedia L e r w).2.db.media, row.ID = m.ID ∧ row.URL = m.URL) ∧
      ∃ hsh fileName : String,
        hsh.data =
          hexEncode (L.sha256 (sanitizeString (formValue r form "Name") ++ e.now)).bytes ∧
        hsh.length = 64 ∧ (∀ c ∈ hsh.data, c ∈ "0123456789abcdef".data) ∧
        fileName = hsh ++ "_" ++ sanitizeString f ∧
        '/' ∉ fileName.data ∧
        m.URL = filepathJoin uploadDir fileName ∧
        m.URL = "../static/uploads" ++ "/" ++ fileName := by
  obtain ⟨form, f, tags, m, db2, hp, hm, hform, _, hfile, _, _, hc, heq⟩ :=
    AllMedia_created L e r w h
  obtain ⟨hmv, _, hmedia, _, _, _⟩ := createMedia_some _ _ _ _ _ _ hc
  have hjoin : ∀ fileName : String, '/' ∉ fileName.data → 2 < fileName.length →
      filepathJoin uploadDir fileName = "../static/uploads" ++ "/" ++ fileName := by
    intro fileName h1 h2
    have hlen : 2 < fileName.data.length := h2
    have hu : uploadDir ≠ "" := by decide
    unfold filepathJoin
    rw [if_pos hu, filepathClean_upload _ h1]
    · apply String.ext
      simp [uploadDir]
    · intro h0
      rw [h0] at hlen
      simp at hlen
    · intro h0
      rw [h0] at hlen
      simp at hlen
    · intro h0
      rw [h0] at hlen
      simp at hlen
  have hrow : ∃ row ∈ db2.media, row.ID = m.ID ∧ row.URL = m.URL := by
    rw [hmedia, hmv]
    exact ⟨_, List.mem_append_right _ (List.mem_singleton_self _), rfl, rfl⟩
  refine ⟨form, f, m, hm, hp, hform, hfile, by rw [heq], ?_, ?_⟩
  · rw [heq]
    exact hrow
  · refine ⟨generateUniqueFilename L e (sanitizeString (formValue r form "Name")), _,
      rfl, generateUniqueFilename_length _ _ _, hexEncode_mem _, rfl,
      uploadName_not_mem _ _ _ _, by rw [hmv], ?_⟩
    rw [hmv]
    apply hjoin _ (uploadName_not_mem _ _ _ _)
    simp only [String.length_append, generateUniqueFilename_length]
    omega

set_option maxRecDepth 100000 in
theorem AllMedia_stored_path_witness :
    (AllMedia sampleLib sampleEnv sampleUpload emptyWorld).1.Code = 201 ∧
    ∃ form f m,
      sampleUpload.Method = "POST" ∧ sampleUpload.Path = "/v1/media" ∧
      sampleUpload.Form = some form ∧ form.File = some f ∧
      (AllMedia sampleLib sampleEnv sampleUpload emptyWorld).1.Body = Payload.medium m ∧
      (∃ row ∈ (AllMedia sampleLib sampleEnv sampleUpload emptyWorld).2.db.media,
        row.ID = m.ID ∧ row.URL = m.URL) ∧
      ∃ hsh fileName : String,
        hsh.data = hexEncode
          (sampleLib.sha256 (sanitizeString (formValue sampleUpload form "Name") ++ sampleEnv.now)).bytes ∧
        hsh.length = 64 ∧ (∀ c ∈ hsh.data, c ∈ "0123456789abcdef".data) ∧
        fileName = hsh ++ "_" ++ sanitizeString f ∧
        '/' ∉ fileName.data ∧
        m.URL = filepathJoin uploadDir fileName ∧
        m.URL = "../static/uploads" ++ "/" ++ fileName :=
  ⟨by decide, AllMedia_stored_path sampleLib sampleEnv sampleUpload emptyWorld (by decide)⟩

/-! ### Looking up and inserting tags -/

theorem minByID_mem : ∀ (l : List Tag) (t : Tag), minByID l = some t → t ∈ l
  | [], t, h => by cases h
  | a :: l, t, h => by
    unfold minByID at h
    cases hm : minByID l with
    | none =>
      rw [hm] at h
      simp only [Option.some.injEq] at h
      simp [h]
    | some u =>
      rw [hm] at h
      simp only at h
      split at h
      · simp only [Option.some.injEq] at h
        simp [h]
      · simp only [Option.some.injEq] at h
        subst h
        exact List.mem_cons_of_mem _ (minByID_mem l u hm)

theorem minByID_eq_none : ∀ (l : List Tag), minByID l = none → l = []
  | [], _ => rfl
  | a :: l, h => by
    unfold minByID at h
    cases hm : minByID l with
    | none => rw [hm] at h; cases h
    | some u =>
      rw [hm] at h
      simp only at h
      split at h <;> cases h

theorem firstTagByName_some (db : DB) (n : String) (t : Tag)
    (h : db.firstTagByName n = some t) : t ∈ db.tags ∧ t.Deleted = false ∧ t.Name = n := by
  have := minByID_mem _ _ h
  simpa [List.mem_filter] using this

theorem firstTagByName_none (db : DB) (n : String) (h : db.firstTagByName n = none) :
    ∀ u ∈ db.tags, u.Deleted = false → u.Name ≠ n := by
  intro u hu hd hn
  have := minByID_eq_none _ h
  have hmem : u ∈ db.tags.filter (fun t => !t.Deleted && t.Name == n) := by
    simp [List.mem_filter, hu, hd, hn]
  rw [this] at hmem
  cases hmem

theorem firstTagByName_append (db : DB) (added : List Tag) (n : String)
    (h : ∀ a ∈ added, a.Name ≠ n) :
    DB.firstTagByName { db with tags := db.tags ++ added } n = db.firstTagByName n := by
  unfold DB.firstTagByName
  have : added.filter (fun t => !t.Deleted && t.Name == n) = [] := by
    rw [List.filter_eq_nil_iff]
    intro a ha
    simp [h a ha]
  simp only [List.filter_append, this, List.append_nil]

theorem createTag_some (db : DB) (n : String) (t : Tag) (db1 : DB)
    (h : db.createTag n = some (t, db1)) :
    t = { ID := nextID (db.tags.map Tag.ID), Name := n, Deleted := false } ∧
    db1 = { db with tags := db.tags ++ [t] } ∧ ∀ u ∈ db.tags, u.Name ≠ n := by
  unfold DB.createTag at h
  split at h
  · cases h
  rename_i h1
  simp only [Option.some.injEq, Prod.mk.injEq] at h
  obtain ⟨rfl, rfl⟩ := h
  refine ⟨rfl, rfl, ?_⟩
  intro u hu hn
  apply h1
  simp only [List.any_eq_true, beq_iff_eq]
  exact ⟨u, hu, hn⟩

theorem createTag_none (db : DB) (n : String) (h : db.createTag n = none) :
    ∃ u ∈ db.tags, u.Name = n := by
  unfold DB.createTag at h
  split at h
  · rename_i h1
    simpa only [List.any_eq_true, beq_iff_eq] using h1
  · cases h

/-- The loop over the names adds tags and nothing else: the tags added are
live, carry names of the list that no row had, and no two of them share a
name; the tags returned carry the names of the list in order; a name with a
live tag gives the first such tag of the store, and a name that no row had
gives one of the added tags. -/
theorem resolveTags_spec (names : List String) : ∀ db : DB, ∃ added : List Tag,
    (resolveTags db names).1 = { db with tags := db.tags ++ added } ∧
    (∀ a ∈ added, a.Deleted = false ∧ a.Name ∈ names ∧ ∀ u ∈ db.tags, u.Name ≠ a.Name) ∧
    (added.map Tag.Name).Nodup ∧
    (resolveTags db names).2.map Tag.Name = names ∧
    ∀ t ∈ (resolveTags db names).2,
      ((∃ u ∈ db.tags, u.Deleted = false ∧ u.Name = t.Name) →
        db.firstTagByName t.Name = some t) ∧
      ((∀ u ∈ db.tags, u.Name ≠ t.Name) → t ∈ added) := by
  induction names with
  | nil =>
    intro db
    exact ⟨[], by simp [resolveTags], by simp, by simp, by simp [resolveTags],
      by simp [resolveTags]⟩
  | cons n ns ih =>
    intro db
    cases hl : db.firstTagByName n with
    | some t0 =>
      obtain ⟨added, h1, h2, h3, h4, h5⟩ := ih db
      obtain ⟨ht0, _, hn0⟩ := firstTagByName_some db n t0 hl
      refine ⟨added, by simp [resolveTags, hl, h1], ?_, h3, by simp [resolveTags, hl, h4, hn0],
        ?_⟩
      · intro a ha
        obtain ⟨a1, a2, a3⟩ := h2 a ha
        exact ⟨a1, List.mem_cons_of_mem _ a2, a3⟩
      · intro t ht
        simp only [resolveTags, hl, List.mem_cons] at ht
        rcases ht with rfl | ht
        · refine ⟨fun _ => by rw [hn0]; exact hl, fun hno => absurd rfl (hno t ht0)⟩
        · exact h5 t ht
    | none =>
      cases hc : db.createTag n with
      | some res =>
        obtain ⟨t0, db1⟩ := res
        obtain ⟨e0, e1, hfresh⟩ := createTag_some db n t0 db1 hc
        have hname0 : t0.Name = n := by rw [e0]
        have hlive0 : t0.Deleted = false := by rw [e0]
        have htags1 : db1.tags = db.tags ++ [t0] := by rw [e1]
        obtain ⟨added, h1, h2, h3, h4, h5⟩ := ih db1
        refine ⟨t0 :: added, ?_, ?_, ?_, ?_, ?_⟩
        · simp only [resolveTags, hl, hc, h1]
          rw [e1]
          simp
        · intro a ha
          rcases List.mem_cons.1 ha with rfl | ha
          · exact ⟨hlive0, by simp [hname0], fun u hu => by rw [hname0]; exact hfresh u hu⟩
          · obtain ⟨a1, a2, a3⟩ := h2 a ha
            refine ⟨a1, List.mem_cons_of_mem _ a2, fun u hu => a3 u ?_⟩
            rw [htags1]
            exact List.mem_append_left _ hu
        · rw [List.map_cons, List.nodup_cons]
          refine ⟨?_, h3⟩
          intro hmem
          obtain ⟨a, ha, hane⟩ := List.mem_map.1 hmem
          exact (h2 a ha).2.2 t0 (by rw [htags1]; simp) hane.symm
        · simp [resolveTags, hl, hc, h4, hname0]
        · intro t ht
          simp only [resolveTags, hl, hc, List.mem_cons] at ht
          rcases ht with rfl | ht
          · refine ⟨?_, fun _ => List.mem_cons_self _ _⟩
            rintro ⟨u, hu, _, hun⟩
            exact absurd (hun.trans hname0) (hfresh u hu)
          · obtain ⟨p1, p2⟩ := h5 t ht
            constructor
            · rintro ⟨u, hu, hud, hun⟩
              have hne : t.Name ≠ n := fun he => hfresh u hu (hun.trans he)
              have := p1 ⟨u, by rw [htags1]; exact List.mem_append_left _ hu, hud, hun⟩
              rw [e1, firstTagByName_append] at this
              · exact this
              · intro a ha
                rw [List.mem_singleton.1 ha, hname0]
                exact fun he => hne he.symm
            · intro hno
              by_cases hne : t.Name = n
              · have := p1 ⟨t0, by rw [htags1]; simp, hlive0, by rw [hname0, hne]⟩
                obtain ⟨q1, _, _⟩ := firstTagByName_some _ _ _ this
                rw [htags1] at q1
                rcases List.mem_append.1 q1 with q | q
                · exact absurd rfl (hno t q)
                · rw [List.mem_singleton.1 q]
                  exact List.mem_cons_self _ _
              · apply List.mem_cons_of_mem
                apply p2
                intro u hu
                rw [htags1] at hu
                rcases List.mem_append.1 hu with q | q
                · exact hno u q
                · rw [List.mem_singleton.1 q, hname0]
                  exact fun he => hne he.symm
      | none =>
        obtain ⟨u0, hu0, hun0⟩ := createTag_none db n hc
        obtain ⟨added, h1, h2, h3, h4, h5⟩ := ih db
        refine ⟨added, by simp [resolveTags, hl, hc, h1], ?_, h3,
          by simp [resolveTags, hl, hc, h4], ?_⟩
        · intro a ha
          obtain ⟨a1, a2, a3⟩ := h2 a ha
          exact ⟨a1, List.mem_cons_of_mem _ a2, a3⟩
        · intro t ht
          simp only [resolveTags, hl, hc, List.mem_cons] at ht
          rcases ht with rfl | ht
          · constructor
            · rintro ⟨u, hu, hud, hun⟩
              exact absurd hun (firstTagByName_none db n hl u hu hud)
            · intro hno
              exact absurd hun0 (hno u0 hu0)
          · exact h5 t ht

/-- The tags that the loop hands to `db.Create(&newMedia)` are rows of the
store, or carry the zero identifier and a name that a row of the store has. -/
theorem resolveTags_rows (names : List String) : ∀ db : DB,
    ∀ t ∈ (resolveTags db names).2,
      t ∈ (resolveTags db names).1.tags ∨
      (t.ID = 0 ∧ ∃ u ∈ (resolveTags db names).1.tags, u.Name = t.Name) := by
  induction names with
  | nil => intro db t ht; simp [resolveTags] at ht
  | cons n ns ih =>
    intro db t ht
    have hsub : ∀ db0 : DB, ∀ u ∈ db0.tags, u ∈ (resolveTags db0 ns).1.tags := by
      intro db0 u hu
      obtain ⟨added, h1, _⟩ := resolveTags_spec ns db0
      rw [h1]
      exact List.mem_append_left _ hu
    cases hl : db.firstTagByName n with
    | some t0 =>
      simp only [resolveTags, hl, List.mem_cons] at ht ⊢
      rcases ht with rfl | ht
      · exact Or.inl (hsub db t (firstTagByName_some db n t hl).1)
      · exact ih db t ht
    | none =>
      cases hc : db.createTag n with
      | some res =>
        obtain ⟨t0, db1⟩ := res
        obtain ⟨_, e1, _⟩ := createTag_some db n t0 db1 hc
        simp only [resolveTags, hl, hc, List.mem_cons] at ht ⊢
        rcases ht with rfl | ht
        · exact Or.inl (hsub db1 t (by rw [e1]; simp))
        · exact ih db1 t ht
      | none =>
        obtain ⟨u0, hu0, hun0⟩ := createTag_none db n hc
        simp only [resolveTags, hl, hc, List.mem_cons] at ht ⊢
        rcases ht with rfl | ht
        · exact Or.inr ⟨rfl, u0, hsub db u0 hu0, hun0⟩
        · exact ih db t ht

/-- C5: a `POST /v1/media` answered with 201 whose `Tags` field decodes to the
names `n1..nk` returns tags that carry exactly these names, in order.  The
store's tags after the request are those before followed by added ones, which
are live, carry pairwise different names of the list, and never a name that a
row already had (no second tag).  A name that belonged to a live tag is
answered with that row of the store; a name that no row carried is answered
with one of the added rows; and in every case a row of the store carries the
name afterwards. -/
theorem AllMedia_resolves_tags (L : Lib) (e : Env) (r : Request) (w : World)
    (h : (AllMedia L e r w).1.Code = 201) :
    ∃ form names m added,
      r.Form = some form ∧ L.unmarshalTags (formValue r form "Tags") = some names ∧
      (AllMedia L e r w).1.Body = Payload.medium m ∧
      m.Tags.map Tag.Name = names ∧
      (AllMedia L e r w).2.db.tags = w.db.tags ++ added ∧
      (∀ a ∈ added, a.Deleted = false ∧ a.Name ∈ names ∧ ∀ u ∈ w.db.tags, u.Name ≠ a.Name) ∧
      (added.map Tag.Name).Nodup ∧
      ∀ t ∈ m.Tags,
        ((∃ u ∈ w.db.tags, u.Deleted = false ∧ u.Name = t.Name) →
          w.db.firstTagByName t.Name = some t ∧ t ∈ w.db.tags ∧ t.Deleted = false) ∧
        ((∀ u ∈ w.db.tags, u.Name ≠ t.Name) →
          t ∈ added ∧ t ∈ (AllMedia L e r w).2.db.tags ∧ t.Deleted = false) ∧
        ∃ u ∈ (AllMedia L e r w).2.db.tags, u.Name = t.Name := by
  obtain ⟨form, f, names, m, db2, _, _, hform, _, _, _, hnames, hc, heq⟩ :=
    AllMedia_created L e r w h
  obtain ⟨hmv, htags, _, _, _, _⟩ := createMedia_some _ _ _ _ _ _ hc
  obtain ⟨added, h1, h2, h3, h4, h5⟩ := resolveTags_spec names w.db
  have hafter : (AllMedia L e r w).2.db.tags = w.db.tags ++ added := by
    rw [heq]
    show db2.tags = _
    rw [htags, h1]
  have hmt : m.Tags = (resolveTags w.db names).2 := by rw [hmv]
  refine ⟨form, names, m, added, hform, hnames, by rw [heq], by rw [hmt, h4], hafter, h2, h3,
    ?_⟩
  intro t ht
  rw [hmt] at ht
  obtain ⟨p1, p2⟩ := h5 t ht
  refine ⟨?_, ?_, ?_⟩
  · intro hex
    have hf := p1 hex
    obtain ⟨q1, q2, _⟩ := firstTagByName_some _ _ _ hf
    exact ⟨hf, q1, q2⟩
  · intro hno
    have hta := p2 hno
    refine ⟨hta, ?_, (h2 t hta).1⟩
    rw [hafter]
    exact List.mem_append_right _ hta
  · rw [hafter]
    by_cases hex : ∃ u ∈ w.db.tags, u.Name = t.Name
    · obtain ⟨u, hu, hun⟩ := hex
      exact ⟨u, List.mem_append_left _ hu, hun⟩
    · have hno : ∀ u ∈ w.db.tags, u.Name ≠ t.Name := fun u hu hun => hex ⟨u, hu, hun⟩
      exact ⟨t, List.mem_append_right _ (p2 hno), rfl⟩

set_option maxRecDepth 100000 in
theorem AllMedia_resolves_tags_witness :
    (AllMedia sampleLib sampleEnv sampleUpload oneTagWorld).1.Code = 201 ∧
    ∃ form names m added,
      sampleUpload.Form = some form ∧
      sampleLib.unmarshalTags (formValue sampleUpload form "Tags") = some names ∧
      (AllMedia sampleLib sampleEnv sampleUpload oneTagWorld).1.Body = Payload.medium m ∧
      m.Tags.map Tag.Name = names ∧
      (AllMedia sampleLib sampleEnv sampleUpload oneTagWorld).2.db.tags =
        oneTagWorld.db.tags ++ added ∧
      (∀ a ∈ added, a.Deleted = false ∧ a.Name ∈ names ∧
        ∀ u ∈ oneTagWorld.db.tags, u.Name ≠ a.Name) ∧
      (added.map Tag.Name).Nodup ∧
      ∀ t ∈ m.Tags,
        ((∃ u ∈ oneTagWorld.db.tags, u.Deleted = false ∧ u.Name = t.Name) →
          oneTagWorld.db.firstTagByName t.Name = some t ∧ t ∈ oneTagWorld.db.tags ∧
            t.Deleted = false) ∧
        ((∀ u ∈ oneTagWorld.db.tags, u.Name ≠ t.Name) →
          t ∈ added ∧ t ∈ (AllMedia sampleLib sampleEnv sampleUpload oneTagWorld).2.db.tags ∧
            t.Deleted = false) ∧
        ∃ u ∈ (AllMedia sampleLib sampleEnv sampleUpload oneTagWorld).2.db.tags,
          u.Name = t.Name :=
  ⟨by decide, AllMedia_resolves_tags sampleLib sampleEnv sampleUpload oneTagWorld (by decide)⟩

/-! ### Parsing an identifier -/

theorem parseDigits_digitChar (d : Nat) (hd : d < 10) (rest : List Char) (a : Nat) :
    parseDigits (Nat.digitChar d :: rest) a = parseDigits rest (a * 10 + d) := by
  interval_cases d <;> rfl

theorem parseDigits_toDigitsCore (fuel : Nat) : ∀ (n : Nat) (acc : List Char), n < fuel →
    ∃ (ds : List Char) (k : Nat), ds ≠ [] ∧ Nat.toDigitsCore 10 fuel n acc = ds ++ acc ∧
      ∀ (rest : List Char) (a : Nat),
        parseDigits (ds ++ rest) a = parseDigits rest (a * 10 ^ k + n) := by
  induction fuel with
  | zero => intro n acc h; omega
  | succ fuel ih =>
    intro n acc h
    by_cases hz : n / 10 = 0
    · refine ⟨[Nat.digitChar (n % 10)], 1, by simp, by simp [Nat.toDigitsCore, hz], ?_⟩
      intro rest a
      have hn : n % 10 = n := Nat.mod_eq_of_lt (by omega)
      rw [List.singleton_append, parseDigits_digitChar _ (Nat.mod_lt _ (by decide)), hn]
      simp
    · have hlt : n / 10 < fuel := by omega
      obtain ⟨ds, k, _, h2, h3⟩ := ih (n / 10) (Nat.digitChar (n % 10) :: acc) hlt
      refine ⟨ds ++ [Nat.digitChar (n % 10)], k + 1, by simp, ?_, ?_⟩
      · simp [Nat.toDigitsCore, hz, h2]
      · intro rest a
        rw [List.append_assoc, h3, List.singleton_append,
          parseDigits_digitChar _ (Nat.mod_lt _ (by decide))]
        congr 1
        have := Nat.div_add_mod n 10
        rw [Nat.pow_succ]
        nlinarith [this]

/-- The value written by `strconv.FormatUint` is read back by
`strconv.ParseUint` when it fits the bit size. -/
theorem ParseUint_FormatUint (t bitSize : Nat) (h : t < 2 ^ bitSize) :
    ParseUint (FormatUint t) bitSize = some t := by
  obtain ⟨ds, k, h1, h2, h3⟩ := parseDigits_toDigitsCore (t + 1) t [] (Nat.lt_succ_self t)
  have hd : (FormatUint t).data = ds := by
    show Nat.toDigits 10 t = ds
    unfold Nat.toDigits
    rw [h2, List.append_nil]
  have hne : FormatUint t ≠ "" := by
    intro h0
    rw [h0] at hd
    exact h1 hd.symm
  have hp : parseDigits (FormatUint t).data 0 = some t := by
    rw [hd]
    have := h3 [] 0
    rw [List.append_nil] at this
    rw [this]
    simp [parseDigits]
  unfold ParseUint
  rw [if_neg hne, hp]
  simp [h]

/-! ### Listing media -/

theorem filter_pair_nodup (rows : List (Nat × Nat)) (a b : Nat) (h : rows.Nodup) :
    rows.filter (fun j => j.1 == a && j.2 == b) = if (a, b) ∈ rows then [(a, b)] else [] := by
  induction rows with
  | nil => simp
  | cons x xs ih =>
    obtain ⟨hx, hxs⟩ := List.nodup_cons.1 h
    by_cases hxe : x = (a, b)
    · subst hxe
      have : (a, b) ∉ xs := hx
      simp [List.filter_cons, ih hxs, this]
    · have hne : ¬ (x.1 = a ∧ x.2 = b) := fun hh => hxe (Prod.ext hh.1 hh.2)
      have hne2 : ¬ ((a, b) = x) := fun hh => hxe hh.symm
      simp only [List.filter_cons, Bool.and_eq_true, beq_iff_eq, hne, if_false, ih hxs,
        List.mem_cons, hne2, false_or]

theorem findMediaByTag_eq (db : DB) (t : Nat) (h : db.media_tags.Nodup) :
    db.findMediaByTag t =
      ((db.media.filter (fun m => !m.Deleted)).filter
        (fun m => decide ((m.ID, t) ∈ db.media_tags))).map db.load := by
  unfold DB.findMediaByTag
  congr 1
  induction db.media.filter (fun m => !m.Deleted) with
  | nil => rfl
  | cons m ms ih =>
    rw [List.flatMap_cons, ih, filter_pair_nodup _ _ _ h]
    by_cases hm : (m.ID, t) ∈ db.media_tags
    · simp [List.filter_cons, hm]
    · simp [List.filter_cons, hm]

/-- C6, as stated, fails: the identifier 4294967296 does not fit the 32 bits that
the handler parses, and the request is answered with 400 and not with the
empty sequence, although no media is associated with it. -/
theorem AllMedia_get_wide_id_counterexample :
    FormatUint 4294967296 = "4294967296" ∧
    (∀ row ∈ emptyWorld.db.media, (row.ID, 4294967296) ∉ emptyWorld.db.media_tags) ∧
    (AllMedia sampleLib sampleEnv (getMediaByTag "4294967296") emptyWorld).1 =
      httpError "Invalid tag ID" 400 ∧
    (AllMedia sampleLib sampleEnv (getMediaByTag "4294967296") emptyWorld).1 ≠
      { Code := 200, Allow := none, Body := Payload.media [] } := by
  decide

/-- C6, amended: on a store whose primary keys hold, a `GET /v1/media` whose
`tag` value parses (base 10, 32 bits) to `t` is answered 200 with exactly the
live media linked to `t`, each once and each with all of its own live tags
(each once); when no live media is linked to `t`, the result is the empty
sequence. The world is not changed. -/
theorem AllMedia_get_by_tag (L : Lib) (e : Env) (r : Request) (w : World) (t : Nat)
    (hkeys : w.db.KeysOK) (hp : r.Path = "/v1/media") (hm : r.Method = "GET")
    (hq : ParseUint (getValue r.Query "tag") 32 = some t) :
    ∃ ms : List Media,
      AllMedia L e r w = ({ Code := 200, Allow := none, Body := Payload.media ms }, w) ∧
      (ms.map Media.ID).Nodup ∧
      (∀ m ∈ ms, ∃ row ∈ w.db.media, row.Deleted = false ∧ (row.ID, t) ∈ w.db.media_tags ∧
        m.ID = row.ID ∧ m.Name = row.Name ∧ m.URL = row.URL ∧ m.Tags.Nodup ∧
        ∀ u, u ∈ m.Tags ↔
          u ∈ w.db.tags ∧ u.Deleted = false ∧ (row.ID, u.ID) ∈ w.db.media_tags) ∧
      (∀ row ∈ w.db.media, row.Deleted = false → (row.ID, t) ∈ w.db.media_tags →
        ∃ m ∈ ms, m.ID = row.ID) ∧
      ((∀ row ∈ w.db.media, row.Deleted = false → (row.ID, t) ∉ w.db.media_tags) → ms = []) := by
  obtain ⟨hk1, hk2, hk3⟩ := hkeys
  have hne : getValue r.Query "tag" ≠ "" := by
    intro h0
    have h1 : ParseUint "" 32 = none := by decide
    rw [h0, h1] at hq
    cases hq
  refine ⟨w.db.findMediaByTag t, ?_, ?_, ?_, ?_, ?_⟩
  · simp [AllMedia, hp, hm, hne, hq]
  · rw [findMediaByTag_eq _ _ hk3, List.map_map]
    have : (Media.ID ∘ w.db.load) = MediaRow.ID := rfl
    rw [this]
    exact hk2.sublist (((List.filter_sublist _).trans (List.filter_sublist _)).map _)
  · intro m
    rw [findMediaByTag_eq _ _ hk3]
    simp only [List.mem_map, List.mem_filter, Bool.not_eq_true', decide_eq_true_eq]
    rintro ⟨row, ⟨⟨hrow, hlive⟩, hlink⟩, rfl⟩
    refine ⟨row, hrow, hlive, hlink, rfl, rfl, rfl,
      (List.Nodup.of_map _ hk1).sublist (List.filter_sublist _), fun u => ?_⟩
    simp [DB.load, DB.tagsOf, List.mem_filter]
  · intro row hrow hlive hlink
    rw [findMediaByTag_eq _ _ hk3]
    refine ⟨w.db.load row, ?_, rfl⟩
    simp only [List.mem_map, List.mem_filter, Bool.not_eq_true', decide_eq_true_eq]
    exact ⟨row, ⟨⟨hrow, hlive⟩, hlink⟩, rfl⟩
  · intro hnone
    rw [findMediaByTag_eq _ _ hk3]
    have : (w.db.media.filter (fun m => !m.Deleted)).filter
        (fun m => decide ((m.ID, t) ∈ w.db.media_tags)) = [] := by
      rw [List.filter_eq_nil_iff]
      intro row hrow
      simp only [List.mem_filter, Bool.not_eq_true'] at hrow
      simpa using hnone row hrow.1 hrow.2
    rw [this]
    rfl

theorem AllMedia_get_by_tag_witness :
    threeMediaWorld.db.KeysOK ∧ (getMediaByTag "2").Path = "/v1/media" ∧
    (getMediaByTag "2").Method = "GET" ∧
    ParseUint (getValue (getMediaByTag "2").Query "tag") 32 = some 2 ∧
    ∃ ms : List Media,
      AllMedia sampleLib sampleEnv (getMediaByTag "2") threeMediaWorld =
        ({ Code := 200, Allow := none, Body := Payload.media ms }, threeMediaWorld) ∧
      (ms.map Media.ID).Nodup ∧
      (∀ m ∈ ms, ∃ row ∈ threeMediaWorld.db.media, row.Deleted = false ∧
        (row.ID, 2) ∈ threeMediaWorld.db.media_tags ∧
        m.ID = row.ID ∧ m.Name = row.Name ∧ m.URL = row.URL ∧ m.Tags.Nodup ∧
        ∀ u, u ∈ m.Tags ↔ u ∈ threeMediaWorld.db.tags ∧ u.Deleted = false ∧
          (row.ID, u.ID) ∈ threeMediaWorld.db.media_tags) ∧
      (∀ row ∈ threeMediaWorld.db.media, row.Deleted = false →
        (row.ID, 2) ∈ threeMediaWorld.db.media_tags → ∃ m ∈ ms, m.ID = row.ID) ∧
      ((∀ row ∈ threeMediaWorld.db.media, row.Deleted = false →
        (row.ID, 2) ∉ threeMediaWorld.db.media_tags) → ms = []) :=
  ⟨by decide, by decide, by decide, by decide,
    AllMedia_get_by_tag sampleLib sampleEnv (getMediaByTag "2") threeMediaWorld 2
      (by decide) (by decide) (by decide) (by decide)⟩

example : (AllMedia sampleLib sampleEnv (getMediaByTag "2") threeMediaWorld).1.Body =
    Payload.media [Media.mk 1 "media1" [Tag.mk 2 "tag2" false]
      "../static/uploads/fgggff5fgf_bg.png"] := by decide

example : (AllMedia sampleLib sampleEnv (getMediaByTag "909345") threeMediaWorld).1 =
    { Code := 200, Allow := none, Body := Payload.media [] } := by decide

/-- C7, as stated, fails: with `?tag=` the parameter is present and its value,
the empty string, does not parse, yet the request is answered 200 with the
listing of all media. -/
theorem AllMedia_get_empty_tag_counterexample :
    (∃ v, ("tag", v) ∈ (getMediaByTag "").Query) ∧
    ParseUint (getValue (getMediaByTag "").Query "tag") 32 = none ∧
    (AllMedia sampleLib sampleEnv (getMediaByTag "") threeMediaWorld).1 =
      { Code := 200, Allow := none, Body := Payload.media threeMediaWorld.db.findMedia } ∧
    threeMediaWorld.db.findMedia.length = 3 := by
  refine ⟨⟨"", by decide⟩, by decide, by decide, by decide⟩

/-- C7, amended: a `GET /v1/media` whose `tag` value is not empty and does not
parse as a base-10 unsigned integer of 32 bits is answered 400 with the body
`Invalid tag ID`; no listing is produced and the world is not changed. -/
theorem AllMedia_get_invalid_tag (L : Lib) (e : Env) (r : Request) (w : World)
    (hp : r.Path = "/v1/media") (hm : r.Method = "GET")
    (hne : getValue r.Query "tag" ≠ "")
    (hq : ParseUint (getValue r.Query "tag") 32 = none) :
    AllMedia L e r w = (httpError "Invalid tag ID" 400, w) ∧
    (AllMedia L e r w).1.Code = 400 ∧
    (AllMedia L e r w).1.Body = Payload.text "Invalid tag ID\n" := by
  have : AllMedia L e r w = (httpError "Invalid tag ID" 400, w) := by
    simp [AllMedia, hp, hm, hne, hq]
  rw [this]
  exact ⟨rfl, rfl, rfl⟩

theorem AllMedia_get_invalid_tag_witness :
    (getMediaByTag "12x").Path = "/v1/media" ∧ (getMediaByTag "12x").Method = "GET" ∧
    getValue (getMediaByTag "12x").Query "tag" ≠ "" ∧
    ParseUint (getValue (getMediaByTag "12x").Query "tag") 32 = none ∧
    (AllMedia sampleLib sampleEnv (getMediaByTag "12x") threeMediaWorld =
        (httpError "Invalid tag ID" 400, threeMediaWorld) ∧
      (AllMedia sampleLib sampleEnv (getMediaByTag "12x") threeMediaWorld).1.Code = 400 ∧
      (AllMedia sampleLib sampleEnv (getMediaByTag "12x") threeMediaWorld).1.Body =
        Payload.text "Invalid tag ID\n") :=
  ⟨by decide, by decide, by decide, by decide,
    AllMedia_get_invalid_tag sampleLib sampleEnv (getMediaByTag "12x") threeMediaWorld
      (by decide) (by decide) (by decide) (by decide)⟩

/-! ### Rejected uploads -/

theorem getValue_absent (vs : List (String × String)) (key : String)
    (h : ∀ kv ∈ vs, kv.1 ≠ key) : getValue vs key = "" := by
  unfold getValue
  have : vs.find? (fun kv => kv.1 == key) = none := by
    rw [List.find?_eq_none]
    intro kv hkv
    simpa using h kv hkv
  rw [this]

theorem unmarshalTags_eq_none (L : Lib) (s : String)
    (h : L.parseJSON s = none ∨ ∃ j, L.parseJSON s = some j ∧ decodeTagsValue L j = none) :
    L.unmarshalTags s = none := by
  unfold Lib.unmarshalTags
  rcases h with h | ⟨j, h1, h2⟩
  · rw [h]
  · rw [h1]
    simp only [h2]

theorem decodeTagElems_none (L : Lib) (x : JSON) (hx : decodeTagValue L zeroTag x = none) :
    ∀ elems : List JSON, x ∈ elems → decodeTagElems L elems = none
  | [], h => by cases h
  | j :: js, h => by
    unfold decodeTagElems
    rcases List.mem_cons.1 h with rfl | h
    · rw [hx]
    · rw [decodeTagElems_none L x hx js h]
      cases decodeTagValue L zeroTag j <;> rfl

/-- What `json.Unmarshal` into a `[]Tag` accepts and rejects by the kind of
the value: `null` is accepted and gives no tag; a value that is neither `null`
nor an array is rejected; so is an array with an element that is neither
`null` nor an object. -/
theorem decodeTagsValue_kinds (L : Lib) :
    decodeTagsValue L JSON.null = some [] ∧
    (∀ j, j ≠ JSON.null → (∀ elems, j ≠ JSON.arr elems) → decodeTagsValue L j = none) ∧
    (∀ elems x, x ∈ elems → x ≠ JSON.null → (∀ fields, x ≠ JSON.obj fields) →
      decodeTagsValue L (JSON.arr elems) = none) := by
  refine ⟨rfl, ?_, ?_⟩
  · intro j h1 h2
    cases j with
    | null => exact absurd rfl h1
    | arr elems => exact absurd rfl (h2 elems)
    | bool b => rfl
    | nat n => rfl
    | num => rfl
    | str s => rfl
    | obj fields => rfl
  · intro elems x hx h1 h2
    have hnone : decodeTagValue L zeroTag x = none := by
      cases x with
      | null => exact absurd rfl h1
      | obj fields => exact absurd rfl (h2 fields)
      | bool b => rfl
      | nat n => rfl
      | num => rfl
      | str s => rfl
      | arr l => rfl
    exact decodeTagElems_none L x hnone elems hx

set_option maxRecDepth 100000 in
/-- C8, as stated, fails in three ways.  The text `null` is not a JSON array of
tag objects, and the upload is answered 201.  A request with `Name` in the
query and no `Name` field in the form is answered 201.  And when the file
cannot be written, an upload with a name, a file and no `Tags` field is
answered 500 `Error saving file`: the file is saved before the tags are
decoded. -/
theorem AllMedia_post_tags_counterexample :
    (sampleLib.parseJSON "null" = some JSON.null ∧ ¬ IsTagArray JSON.null ∧
      nullTagsUpload.Form = some (FormData.mk [("Name", "media1"), ("Tags", "null")]
        (some "bg.png")) ∧
      (AllMedia sampleLib sampleEnv nullTagsUpload emptyWorld).1.Code = 201 ∧
      (AllMedia sampleLib sampleEnv nullTagsUpload emptyWorld).2.db.media.length = 1) ∧
    (queryNameUpload.Form = some (FormData.mk [("Tags", "[]")] (some "bg.png")) ∧
      (∀ kv ∈ [("Tags", "[]")], kv.1 ≠ "Name") ∧
      (AllMedia sampleLib sampleEnv queryNameUpload emptyWorld).1.Code = 201) ∧
    (noTagsUpload.Form = some (FormData.mk [("Name", "media1")] (some "bg.png")) ∧
      (∀ kv ∈ noTagsUpload.Query ++ [("Name", "media1")], kv.1 ≠ "Tags") ∧
      AllMedia sampleLib fullDiskEnv noTagsUpload emptyWorld =
        (httpError "Error saving file" 500, emptyWorld)) := by
  refine ⟨⟨rfl, ?_, by decide, by decide, by decide⟩, ⟨by decide, by decide, by decide⟩,
    ⟨by decide, by decide, by decide⟩⟩
  rintro ⟨elems, h, _⟩
  cases h

/-- C8, amended: for a `POST /v1/media` whose multipart form parses, when
`r.FormValue("Name")` is empty (no `Name` in the query nor in the form, or a
first `Name` that is empty) the answer is 400 `Name is required`; otherwise
an absent `File` part yields 400 `File is required`; otherwise, when the file
has been written, a `Tags` value that is absent, is not JSON, or is JSON that
`json.Unmarshal` cannot store into a `[]Tag` yields 400 `Invalid tags format`
and leaves the store as it was (when the file cannot be written the answer is
500 `Error saving file`); a `Tags` value that is stored is never answered 400.
In none of the rejected cases is the store changed. -/
theorem AllMedia_post_invalid (L : Lib) (e : Env) (r : Request) (w : World) (form : FormData)
    (hp : r.Path = "/v1/media") (hm : r.Method = "POST") (hform : r.Form = some form) :
    ((formValue r form "Name" = "" ∨ ∀ kv ∈ r.Query ++ form.Value, kv.1 ≠ "Name") →
      AllMedia L e r w = (httpError "Name is required" 400, w)) ∧
    (formValue r form "Name" ≠ "" → form.File = none →
      AllMedia L e r w = (httpError "File is required" 400, w)) ∧
    (∀ f, formValue r form "Name" ≠ "" → form.File = some f →
      ((∀ kv ∈ r.Query ++ form.Value, kv.1 ≠ "Tags") ∨
        L.parseJSON (formValue r form "Tags") = none ∨
        ∃ j, L.parseJSON (formValue r form "Tags") = some j ∧ decodeTagsValue L j = none) →
      (e.writable (filepathJoin uploadDir
          (generateUniqueFilename L e (sanitizeString (formValue r form "Name")) ++ "_" ++
            sanitizeString f)) = true →
        (AllMedia L e r w).1 = httpError "Invalid tags format" 400 ∧
        (AllMedia L e r w).2.db = w.db) ∧
      (e.writable (filepathJoin uploadDir
          (generateUniqueFilename L e (sanitizeString (formValue r form "Name")) ++ "_" ++
            sanitizeString f)) = false →
        AllMedia L e r w = (httpError "Error saving file" 500, w))) ∧
    (∀ f j ts, formValue r form "Name" ≠ "" → form.File = some f →
      L.parseJSON (formValue r form "Tags") = some j → decodeTagsValue L j = some ts →
      (AllMedia L e r w).1.Code ≠ 400) := by
  refine ⟨?_, ?_, ?_, ?_⟩
  · intro h
    have hn : formValue r form "Name" = "" := by
      rcases h with h | h
      · exact h
      · exact getValue_absent _ _ h
    simp [AllMedia, hp, hm, hform, hn]
  · intro hn hfile
    simp [AllMedia, hp, hm, hform, hn, hfile]
  · intro f hn hfile htags
    have ht : L.unmarshalTags (formValue r form "Tags") = none := by
      rcases htags with h | h
      · have h0 : formValue r form "Tags" = "" := getValue_absent _ _ h
        rw [h0]
        exact unmarshalTags_eq_none L "" (Or.inl L.parse_empty)
      · exact unmarshalTags_eq_none L _ h
    constructor
    · intro hw
      simp [AllMedia, hp, hm, hform, hn, hfile, saveFileToDisk, hw, ht]
    · intro hw
      simp [AllMedia, hp, hm, hform, hn, hfile, saveFileToDisk, hw]
  · intro f j ts hn hfile hj hts
    have ht : L.unmarshalTags (formValue r form "Tags") = some (ts.map Tag.Name) := by
      unfold Lib.unmarshalTags
      rw [hj]
      simp only [hts]
    cases hw : e.writable (filepathJoin uploadDir
        (generateUniqueFilename L e (sanitizeString (formValue r form "Name")) ++ "_" ++
          sanitizeString f)) with
    | false => simp [AllMedia, hp, hm, hform, hn, hfile, saveFileToDisk, hw, httpError]
    | true =>
      cases hc : (resolveTags w.db (ts.map Tag.Name)).1.createMedia (formValue r form "Name")
          (filepathJoin uploadDir
            (generateUniqueFilename L e (sanitizeString (formValue r form "Name")) ++ "_" ++
              sanitizeString f)) (resolveTags w.db (ts.map Tag.Name)).2 with
      | none =>
        simp [AllMedia, hp, hm, hform, hn, hfile, saveFileToDisk, hw, ht, hc, httpError]
      | some res =>
        simp [AllMedia, hp, hm, hform, hn, hfile, saveFileToDisk, hw, ht, hc]

set_option maxRecDepth 100000 in
theorem AllMedia_post_invalid_witness :
    noTagsUpload.Path = "/v1/media" ∧ noTagsUpload.Method = "POST" ∧
    noTagsUpload.Form = some (FormData.mk [("Name", "media1")] (some "bg.png")) ∧
    (AllMedia sampleLib sampleEnv noTagsUpload emptyWorld).1 =
      httpError "Invalid tags format" 400 ∧
    (AllMedia sampleLib sampleEnv noTagsUpload emptyWorld).2.db = emptyWorld.db :=
  ⟨by decide, by decide, by decide,
    ((AllMedia_post_invalid sampleLib sampleEnv noTagsUpload emptyWorld
      (FormData.mk [("Name", "media1")] (some "bg.png")) (by decide) (by decide)
      (by decide)).2.2.1 "bg.png" (by decide) rfl (Or.inl (by decide))).1 (by decide)⟩

example : (AllMedia sampleLib sampleEnv noTagsUpload emptyWorld).2.files.length = 1 := by decide

/-! ### Creating a tag -/

theorem create_some (db : DB) (tag t : Tag) (db1 : DB) (h : db.create tag = some (t, db1)) :
    t = { tag with ID := if tag.ID = 0 then nextID (db.tags.map Tag.ID) else tag.ID } ∧
    db1 = { db with tags := db.tags ++ [t] } ∧ (∀ u ∈ db.tags, u.Name ≠ tag.Name) ∧
    (tag.ID ≠ 0 → ∀ u ∈ db.tags, u.ID ≠ tag.ID) := by
  unfold DB.create at h
  split at h
  · cases h
  split at h
  · cases h
  rename_i h1 h2
  simp only [Option.some.injEq, Prod.mk.injEq] at h
  obtain ⟨rfl, rfl⟩ := h
  refine ⟨rfl, rfl, ?_, ?_⟩
  · intro u hu hn
    apply h1
    simp only [List.any_eq_true, beq_iff_eq]
    exact ⟨u, hu, hn⟩
  · intro h0 u hu hid
    apply h2
    refine ⟨h0, ?_⟩
    simp only [List.any_eq_true, beq_iff_eq]
    exact ⟨u, hu, hid⟩

example : Tags sampleLib (postTag "\x7b\"name\":\"tag1\"\x7d") oneTagWorld =
    (httpError "Tag with this name already exists" 409, oneTagWorld) := by decide

example : (Tags sampleLib (postTag "\x7b\"name\":\"tag2\"\x7d") oneTagWorld).1 =
    { Code := 201, Allow := none, Body := Payload.tag (Tag.mk 5 "tag2" false) } := by decide

example : (Tags sampleLib (postTag "\x7b\"ID\":4,\"name\":\"tag2\"\x7d") emptyWorld).1 =
    { Code := 201, Allow := none, Body := Payload.tag (Tag.mk 4 "tag2" false) } := by decide

example : Tags sampleLib
    (postTag "\x7b\"name\":\"tag2\",\"DeletedAt\":\"2020-01-01T00:00:00Z\"\x7d") emptyWorld =
    (Response.mk 201 none (Payload.tag (Tag.mk 1 "tag2" true)),
      World.mk (DB.mk [Tag.mk 1 "tag2" true] [] []) []) := by decide

/-! ### The invariant of tag names -/

/-- A store grows by `added` when its tags are followed by `added`, rows with
pairwise different names that no row carried. -/
theorem liveNamesUnique_append (tags added : List Tag)
    (h : ((tags.filter (fun t => !t.Deleted)).map Tag.Name).Nodup)
    (h1 : ∀ a ∈ added, ∀ u ∈ tags, u.Name ≠ a.Name)
    (h2 : (added.map Tag.Name).Nodup) :
    (((tags ++ added).filter (fun t => !t.Deleted)).map Tag.Name).Nodup := by
  rw [List.filter_append, List.map_append, List.nodup_append]
  refine ⟨h, h2.sublist ((List.filter_sublist _).map _), ?_⟩
  intro x hx hy
  obtain ⟨u, hu, rfl⟩ := List.mem_map.1 hx
  obtain ⟨a, ha, hae⟩ := List.mem_map.1 hy
  exact h1 a (List.mem_of_mem_filter ha) u (List.mem_of_mem_filter hu) hae.symm

theorem Tags_grows (L : Lib) (r : Request) (w : World) : ∃ added : List Tag,
    (Tags L r w).2.db.tags = w.db.tags ++ added ∧
    (∀ a ∈ added, ∀ u ∈ w.db.tags, u.Name ≠ a.Name) ∧
    (added.map Tag.Name).Nodup := by
  have hsame : (Tags L r w).2 = w → ∃ added : List Tag,
      (Tags L r w).2.db.tags = w.db.tags ++ added ∧
      (∀ a ∈ added, ∀ u ∈ w.db.tags, u.Name ≠ a.Name) ∧
      (added.map Tag.Name).Nodup := by
    intro h
    exact ⟨[], by rw [h]; simp, by simp, by simp⟩
  by_cases hp : r.Path = "/v1/tags"
  swap
  · exact hsame (by simp [Tags, hp])
  by_cases hg : r.Method = "GET"
  · exact hsame (by simp [Tags, hp, hg])
  by_cases hm : r.Method = "POST"
  swap
  · apply hsame
    simp only [Tags, hp, hg, hm, ne_eq, not_true_eq_false, if_false]
    split <;> rfl
  cases hbody : L.decodeTag r.Body with
  | none => exact hsame (by simp [Tags, hp, hm, hbody])
  | some n =>
    cases hl : w.db.firstTagByName n.Name with
    | some t => exact hsame (by simp [Tags, hp, hm, hbody, hl])
    | none =>
      cases hc : w.db.create n with
      | none => exact hsame (by simp [Tags, hp, hm, hbody, hl, hc])
      | some res =>
        obtain ⟨t, db1⟩ := res
        obtain ⟨e0, e1, hfresh, _⟩ := create_some _ _ _ _ hc
        refine ⟨[t], ?_, ?_, by simp⟩
        · simp [Tags, hp, hm, hbody, hl, hc, e1]
        · intro a ha
          rw [List.mem_singleton.1 ha, e0]
          exact hfresh

theorem AllMedia_grows (L : Lib) (e : Env) (r : Request) (w : World) : ∃ added : List Tag,
    (AllMedia L e r w).2.db.tags = w.db.tags ++ added ∧
    (∀ a ∈ added, ∀ u ∈ w.db.tags, u.Name ≠ a.Name) ∧
    (added.map Tag.Name).Nodup := by
  have hsame : (AllMedia L e r w).2.db = w.db → ∃ added : List Tag,
      (AllMedia L e r w).2.db.tags = w.db.tags ++ added ∧
      (∀ a ∈ added, ∀ u ∈ w.db.tags, u.Name ≠ a.Name) ∧
      (added.map Tag.Name).Nodup := by
    intro h
    exact ⟨[], by rw [h]; simp, by simp, by simp⟩
  by_cases hp : r.Path = "/v1/media"
  swap
  · exact hsame (by simp [AllMedia, hp])
  by_cases hg : r.Method = "GET"
  · apply hsame
    simp only [AllMedia, hp, hg, ne_eq, not_true_eq_false, if_false, if_true]
    split
    · split <;> rfl
    · rfl
  by_cases hm : r.Method = "POST"
  swap
  · apply hsame
    simp only [AllMedia, hp, hg, hm, ne_eq, not_true_eq_false, if_false]
    split <;> rfl
  cases hform : r.Form with
  | none => exact hsame (by simp [AllMedia, hp, hm, hform])
  | some form =>
    by_cases hn : formValue r form "Name" = ""
    · exact hsame (by simp [AllMedia, hp, hm, hform, hn])
    cases hfile : form.File with
    | none => exact hsame (by simp [AllMedia, hp, hm, hform, hn, hfile])
    | some f =>
      cases hw : e.writable (filepathJoin uploadDir
        (generateUniqueFilename L e (sanitizeString (formValue r form "Name")) ++ "_" ++
          sanitizeString f)) with
      | false =>
        exact hsame (by simp [AllMedia, hp, hm, hform, hn, hfile, saveFileToDisk, hw])
      | true =>
        cases ht : L.unmarshalTags (formValue r form "Tags") with
        | none =>
          exact hsame (by simp [AllMedia, hp, hm, hform, hn, hfile, saveFileToDisk, hw, ht])
        | some names =>
          obtain ⟨added, h1, h2, h3, _, _⟩ := resolveTags_spec names w.db
          have h2' : ∀ a ∈ added, ∀ u ∈ w.db.tags, u.Name ≠ a.Name :=
            fun a ha => (h2 a ha).2.2
          cases hc : (resolveTags w.db names).1.createMedia (formValue r form "Name")
            (filepathJoin uploadDir
              (generateUniqueFilename L e (sanitizeString (formValue r form "Name")) ++ "_" ++
                sanitizeString f)) (resolveTags w.db names).2 with
          | none =>
            refine ⟨added, ?_, h2', h3⟩
            simp only [AllMedia, hp, hm, hform, hn, hfile, saveFileToDisk, hw, ht, hc, ne_eq,
              not_true_eq_false, if_false, if_true]
            rw [if_neg (by decide)]
            show (resolveTags w.db names).1.tags = _
            rw [h1]
          | some res =>
            obtain ⟨m, db2⟩ := res
            obtain ⟨_, htags, _, _, _, _⟩ := createMedia_some _ _ _ _ _ _ hc
            refine ⟨added, ?_, h2', h3⟩
            simp only [AllMedia, hp, hm, hform, hn, hfile, saveFileToDisk, hw, ht, hc, ne_eq,
              not_true_eq_false, if_false, if_true]
            rw [if_neg (by decide)]
            show db2.tags = _
            rw [htags, h1]

theorem Index_world (r : Request) (w : World) : (Index r w).2 = w := by
  unfold Index
  split
  · rfl
  split
  · rfl
  split <;> rfl

theorem serve_liveNamesUnique (L : Lib) (e : Env) (r : Request) (w : World)
    (h : w.db.LiveNamesUnique) : (serve L e r w).2.db.LiveNamesUnique := by
  unfold serve
  split
  · rw [Index_world]
    exact h
  split
  · obtain ⟨added, h1, h2, h3⟩ := Tags_grows L r w
    unfold DB.LiveNamesUnique
    rw [h1]
    exact liveNamesUnique_append _ _ h h2 h3
  split
  · obtain ⟨added, h1, h2, h3⟩ := AllMedia_grows L e r w
    unfold DB.LiveNamesUnique
    rw [h1]
    exact liveNamesUnique_append _ _ h h2 h3
  · exact h

/-- C10: if no two live tags of the store share a name, then after any
sequence of requests served by the routes of `main` (in particular any
sequence of `POST /v1/tags` and `POST /v1/media`, with or without repeated
names in a `Tags` list) no two live tags share a name. -/
theorem run_liveNamesUnique (L : Lib) (reqs : List (Env × Request)) (w : World)
    (h : w.db.LiveNamesUnique) : (run L w reqs).db.LiveNamesUnique := by
  induction reqs generalizing w with
  | nil => exact h
  | cons er rest ih =>
    obtain ⟨e, r⟩ := er
    exact ih _ (serve_liveNamesUnique L e r w h)

set_option maxRecDepth 100000 in
theorem run_liveNamesUnique_witness :
    emptyWorld.db.LiveNamesUnique ∧ (run sampleLib emptyWorld sampleSession).db.LiveNamesUnique :=
  ⟨by decide, run_liveNamesUnique sampleLib sampleSession emptyWorld (by decide)⟩

set_option maxRecDepth 100000 in
example : (run sampleLib emptyWorld sampleSession).db.tags =
    [Tag.mk 1 "tag1" false, Tag.mk 2 "tag2" false] := by decide

set_option maxRecDepth 100000 in
example : (AllMedia sampleLib sampleEnv repeatedTagUpload emptyWorld).2.db =
    DB.mk [Tag.mk 1 "tag1" false]
      [MediaRow.mk 1 "media2"
        "../static/uploads/030a11181f262d343b424950575e656c737a81888f969da4abb2b9c0c7ced5dc_photo_1.jpg"
        false]
      [(1, 1)] := by decide

/-! ### Methods that a path does not support -/

theorem Index_method_not_allowed (r : Request) (w : World) (hp : r.Path = "/v1")
    (h1 : r.Method ≠ "GET") (h2 : r.Method ≠ "OPTIONS") :
    Index r w =
      ({ Code := 405, Allow := some "GET, OPTIONS", Body := Payload.text "method not allowed\n" },
        w) := by
  simp [Index, hp, h1, h2, httpError]

theorem Tags_method_not_allowed (L : Lib) (r : Request) (w : World) (hp : r.Path = "/v1/tags")
    (h1 : r.Method ≠ "GET") (h2 : r.Method ≠ "POST") (h3 : r.Method ≠ "OPTIONS") :
    Tags L r w =
      ({ Code := 405, Allow := some "GET, POST, OPTIONS",
         Body := Payload.text "method not allowed\n" }, w) := by
  simp [Tags, hp, h1, h2, h3, httpError]

theorem AllMedia_method_not_allowed (L : Lib) (e : Env) (r : Request) (w : World)
    (hp : r.Path = "/v1/media")
    (h1 : r.Method ≠ "GET") (h2 : r.Method ≠ "POST") (h3 : r.Method ≠ "OPTIONS") :
    AllMedia L e r w =
      ({ Code := 405, Allow := some "GET, POST, OPTIONS",
         Body := Payload.text "method not allowed\n" }, w) := by
  simp [AllMedia, hp, h1, h2, h3, httpError]

/-- C11: a request whose path is exactly `/v1`, `/v1/tags` or `/v1/media` and
whose method the path does not support (anything but `GET`, `OPTIONS` on
`/v1`; anything but `GET`, `POST`, `OPTIONS` on the other two) is answered 405
with the body `method not allowed` and a newline, and with the header `Allow`
equal to `GET, OPTIONS` for `/v1` and to `GET, POST, OPTIONS` for the other
two; the world is left as it was.  The handler of the path gives this answer
both behind the routes of `main` and when called on its own. -/
theorem serve_method_not_allowed (L : Lib) (e : Env) (r : Request) (w : World)
    (h : (r.Path = "/v1" ∧ r.Method ≠ "GET" ∧ r.Method ≠ "OPTIONS") ∨
      ((r.Path = "/v1/tags" ∨ r.Path = "/v1/media") ∧
        r.Method ≠ "GET" ∧ r.Method ≠ "POST" ∧ r.Method ≠ "OPTIONS")) :
    (serve L e r w).1.Code = 405 ∧
    (serve L e r w).1.Body = Payload.text "method not allowed\n" ∧
    (∃ pre post : String,
      (serve L e r w).1.Body = Payload.text (pre ++ "method not allowed" ++ post)) ∧
    (serve L e r w).1.Allow =
      some (if r.Path = "/v1" then "GET, OPTIONS" else "GET, POST, OPTIONS") ∧
    (serve L e r w).2 = w ∧
    (r.Path = "/v1" → Index r w = serve L e r w) ∧
    (r.Path = "/v1/tags" → Tags L r w = serve L e r w) ∧
    (r.Path = "/v1/media" → AllMedia L e r w = serve L e r w) := by
  have hroutes : (r.Path = "/v1" → Index r w = serve L e r w) ∧
      (r.Path = "/v1/tags" → Tags L r w = serve L e r w) ∧
      (r.Path = "/v1/media" → AllMedia L e r w = serve L e r w) := by
    refine ⟨?_, ?_, ?_⟩
    · intro hp
      simp [serve, hp]
    · intro hp
      simp [serve, hp]
    · intro hp
      simp [serve, hp]
  have hbody : ∃ pre post : String,
      Payload.text "method not allowed\n" = Payload.text (pre ++ "method not allowed" ++ post) :=
    ⟨"", "\n", by decide⟩
  rcases h with ⟨hp, h1, h2⟩ | ⟨hp | hp, h1, h2, h3⟩
  · rw [← hroutes.1 hp, Index_method_not_allowed r w hp h1 h2]
    exact ⟨rfl, rfl, hbody, by simp [hp], rfl, fun _ => rfl,
      fun hq => by rw [hp] at hq; exact absurd hq (by decide),
      fun hq => by rw [hp] at hq; exact absurd hq (by decide)⟩
  · rw [← hroutes.2.1 hp, Tags_method_not_allowed L r w hp h1 h2 h3]
    exact ⟨rfl, rfl, hbody, by simp [hp], rfl,
      fun hq => by rw [hp] at hq; exact absurd hq (by decide), fun _ => rfl,
      fun hq => by rw [hp] at hq; exact absurd hq (by decide)⟩
  · rw [← hroutes.2.2 hp, AllMedia_method_not_allowed L e r w hp h1 h2 h3]
    exact ⟨rfl, rfl, hbody, by simp [hp], rfl,
      fun hq => by rw [hp] at hq; exact absurd hq (by decide),
      fun hq => by rw [hp] at hq; exact absurd hq (by decide), fun _ => rfl⟩

theorem serve_method_not_allowed_witness :
    (((bareRequest "PUT" "/v1/tags").Path = "/v1" ∧ (bareRequest "PUT" "/v1/tags").Method ≠ "GET" ∧
        (bareRequest "PUT" "/v1/tags").Method ≠ "OPTIONS") ∨
      (((bareRequest "PUT" "/v1/tags").Path = "/v1/tags" ∨
          (bareRequest "PUT" "/v1/tags").Path = "/v1/media") ∧
        (bareRequest "PUT" "/v1/tags").Method ≠ "GET" ∧
        (bareRequest "PUT" "/v1/tags").Method ≠ "POST" ∧
        (bareRequest "PUT" "/v1/tags").Method ≠ "OPTIONS")) ∧
    ((serve sampleLib sampleEnv (bareRequest "PUT" "/v1/tags") threeMediaWorld).1.Code = 405 ∧
    (serve sampleLib sampleEnv (bareRequest "PUT" "/v1/tags") threeMediaWorld).1.Body =
      Payload.text "method not allowed\n" ∧
    (∃ pre post : String,
      (serve sampleLib sampleEnv (bareRequest "PUT" "/v1/tags") threeMediaWorld).1.Body =
        Payload.text (pre ++ "method not allowed" ++ post)) ∧
    (serve sampleLib sampleEnv (bareRequest "PUT" "/v1/tags") threeMediaWorld).1.Allow =
      some (if (bareRequest "PUT" "/v1/tags").Path = "/v1" then "GET, OPTIONS"
        else "GET, POST, OPTIONS") ∧
    (serve sampleLib sampleEnv (bareRequest "PUT" "/v1/tags") threeMediaWorld).2 =
      threeMediaWorld ∧
    ((bareRequest "PUT" "/v1/tags").Path = "/v1" →
      Index (bareRequest "PUT" "/v1/tags") threeMediaWorld =
        serve sampleLib sampleEnv (bareRequest "PUT" "/v1/tags") threeMediaWorld) ∧
    ((bareRequest "PUT" "/v1/tags").Path = "/v1/tags" →
      Tags sampleLib (bareRequest "PUT" "/v1/tags") threeMediaWorld =
        serve sampleLib sampleEnv (bareRequest "PUT" "/v1/tags") threeMediaWorld) ∧
    ((bareRequest "PUT" "/v1/tags").Path = "/v1/media" →
      AllMedia sampleLib sampleEnv (bareRequest "PUT" "/v1/tags") threeMediaWorld =
        serve sampleLib sampleEnv (bareRequest "PUT" "/v1/tags") threeMediaWorld)) :=
  ⟨by decide, serve_method_not_allowed sampleLib sampleEnv (bareRequest "PUT" "/v1/tags")
    threeMediaWorld (by decide)⟩

example : (Index (bareRequest "DELETE" "/v1") emptyWorld).1 =
    { Code := 405, Allow := some "GET, OPTIONS", Body := Payload.text "method not allowed\n" } := by
  decide

example : (AllMedia sampleLib sampleEnv (bareRequest "PUT" "/v1/media") emptyWorld).1 =
    Response.mk 405 (some "GET, POST, OPTIONS") (Payload.text "method not allowed\n") := by
  decide

example : (serve sampleLib sampleEnv (bareRequest "HEAD" "/v1") emptyWorld).1.Code = 405 := by
  decide

/-! ### Bodies that `POST /v1/tags` rejects -/

/-- The status codes of `POST /v1/tags` on a body that decodes. -/
theorem Tags_post_decoded_code (L : Lib) (r : Request) (w : World) (n : Tag)
    (hp : r.Path = "/v1/tags") (hm : r.Method = "POST") (hbody : L.decodeTag r.Body = some n) :
    (Tags L r w).1.Code = 409 ∨ (Tags L r w).1.Code = 201 ∨ (Tags L r w).1.Code = 500 := by
  cases hl : w.db.firstTagByName n.Name with
  | some t =>
    left
    simp [Tags, hp, hm, hbody, hl, httpError]
  | none =>
    cases hc : w.db.create n with
    | none =>
      right; right
      simp [Tags, hp, hm, hbody, hl, hc, httpError]
    | some res =>
      obtain ⟨t, db1⟩ := res
      right; left
      simp [Tags, hp, hm, hbody, hl, hc]

/-- C12, as stated, fails: a body without a `name` decodes to the empty name,
and on the empty store the request is answered 201 and a tag with the empty
name is created. -/
theorem Tags_post_empty_name_counterexample :
    emptyNameLib.decodeTag (postTag "\x7b\x7d").Body = some (Tag.mk 0 "" false) ∧
    Tags emptyNameLib (postTag "\x7b\x7d") emptyWorld =
      ({ Code := 201, Allow := none, Body := Payload.tag (Tag.mk 1 "" false) },
        { db := { tags := [Tag.mk 1 "" false], media := [], media_tags := [] }, files := [] }) ∧
    (Tags emptyNameLib (postTag "\x7b\x7d") emptyWorld).1.Code ≠ 400 := by
  decide

/-- C12, amended: a `POST /v1/tags` whose body the JSON decoder rejects is
answered 400 `Invalid input` and the world is left as it was; and this is the
only 400 of a `POST /v1/tags`: a body that decodes, be its name missing or
empty, is answered 409, 201 or 500 according to the store, like any other
name. -/
theorem Tags_post_bad_request (L : Lib) (r : Request) (w : World)
    (hp : r.Path = "/v1/tags") (hm : r.Method = "POST") :
    (L.decodeTag r.Body = none → Tags L r w = (httpError "Invalid input" 400, w)) ∧
    ((Tags L r w).1.Code = 400 ↔ L.decodeTag r.Body = none) ∧
    (∀ n, L.decodeTag r.Body = some n →
      (Tags L r w).1.Code = 409 ∨ (Tags L r w).1.Code = 201 ∨ (Tags L r w).1.Code = 500) := by
  have hnone : L.decodeTag r.Body = none → Tags L r w = (httpError "Invalid input" 400, w) := by
    intro hbody
    simp [Tags, hp, hm, hbody]
  refine ⟨hnone, ?_, fun n hbody => Tags_post_decoded_code L r w n hp hm hbody⟩
  constructor
  · intro hcode
    cases hbody : L.decodeTag r.Body with
    | none => rfl
    | some n =>
      rcases Tags_post_decoded_code L r w n hp hm hbody with h | h | h <;>
        rw [h] at hcode <;> exact absurd hcode (by decide)
  · intro hbody
    rw [hnone hbody]
    rfl

theorem Tags_post_bad_request_witness :
    (postTag "\x7b\"Name\":tag1\"\x7d").Path = "/v1/tags" ∧
    (postTag "\x7b\"Name\":tag1\"\x7d").Method = "POST" ∧
    ((sampleLib.decodeTag (postTag "\x7b\"Name\":tag1\"\x7d").Body = none →
      Tags sampleLib (postTag "\x7b\"Name\":tag1\"\x7d") oneTagWorld =
        (httpError "Invalid input" 400, oneTagWorld)) ∧
    ((Tags sampleLib (postTag "\x7b\"Name\":tag1\"\x7d") oneTagWorld).1.Code = 400 ↔
      sampleLib.decodeTag (postTag "\x7b\"Name\":tag1\"\x7d").Body = none) ∧
    (∀ n, sampleLib.decodeTag (postTag "\x7b\"Name\":tag1\"\x7d").Body = some n →
      (Tags sampleLib (postTag "\x7b\"Name\":tag1\"\x7d") oneTagWorld).1.Code = 409 ∨
      (Tags sampleLib (postTag "\x7b\"Name\":tag1\"\x7d") oneTagWorld).1.Code = 201 ∨
      (Tags sampleLib (postTag "\x7b\"Name\":tag1\"\x7d") oneTagWorld).1.Code = 500)) :=
  ⟨by decide, by decide,
    Tags_post_bad_request sampleLib (postTag "\x7b\"Name\":tag1\"\x7d") oneTagWorld
      (by decide) (by decide)⟩

example : Tags sampleLib (postTag "\x7b\"Name\":tag1\"\x7d") oneTagWorld =
    (httpError "Invalid input" 400, oneTagWorld) := by decide

example : (Tags emptyNameLib (postTag "\x7b\"name\":\"\"\x7d")
    (Tags emptyNameLib (postTag "\x7b\x7d") emptyWorld).2).1 =
    httpError "Tag with this name already exists" 409 := by decide

/-! ### Two calls of `generateUniqueFilename` -/

theorem hextable_getD_inj : ∀ i, i < 16 → ∀ j, j < 16 →
    hextable.getD i '0' = hextable.getD j '0' → i = j := by
  decide

theorem hexEncode_mod (bs : List Nat) : hexEncode (bs.map (fun v => v % 256)) = hexEncode bs := by
  induction bs with
  | nil => rfl
  | cons b bs ih =>
    have h1 : b % 256 % 256 / 16 = b % 256 / 16 := by omega
    have h2 : b % 256 % 16 = b % 16 := by omega
    simp only [List.map_cons, hexEncode, ih, h1, h2]

theorem hexEncode_inj : ∀ xs ys : List Nat, hexEncode xs = hexEncode ys →
    xs.map (fun v => v % 256) = ys.map (fun v => v % 256)
  | [], [], _ => rfl
  | [], y :: ys, h => by simp [hexEncode] at h
  | x :: xs, [], h => by simp [hexEncode] at h
  | x :: xs, y :: ys, h => by
    simp only [hexEncode, List.cons.injEq] at h
    obtain ⟨h1, h2, h3⟩ := h
    have e1 := hextable_getD_inj _ (by omega) _ (by omega) h1
    have e2 := hextable_getD_inj _ (by omega) _ (by omega) h2
    have e : x % 256 = y % 256 := by omega
    simp only [List.map_cons, e, hexEncode_inj xs ys h3]

/-- The output of `generateUniqueFilename` is a function of the base string and
of the clock reading: two calls that read the same clock return the same
output, and two outputs differ exactly when the digests of the base string
followed by the two readings differ (as bytes), which needs two different
readings. -/
theorem generateUniqueFilename_differ (L : Lib) (first second : Env) (b : String) :
    (first.now = second.now →
      generateUniqueFilename L first b = generateUniqueFilename L second b) ∧
    (generateUniqueFilename L first b ≠ generateUniqueFilename L second b ↔
      (L.sha256 (b ++ first.now)).bytes.map (fun v => v % 256) ≠
        (L.sha256 (b ++ second.now)).bytes.map (fun v => v % 256)) ∧
    (generateUniqueFilename L first b ≠ generateUniqueFilename L second b →
      first.now ≠ second.now) := by
  have hsame : first.now = second.now →
      generateUniqueFilename L first b = generateUniqueFilename L second b := by
    intro h
    unfold generateUniqueFilename
    rw [h]
  refine ⟨hsame, ?_, fun hne heq => hne (hsame heq)⟩
  unfold generateUniqueFilename
  constructor
  · intro hne hbytes
    apply hne
    rw [← hexEncode_mod (L.sha256 (b ++ first.now)).bytes, hbytes, hexEncode_mod]
  · intro hne heq
    apply hne
    exact hexEncode_inj _ _ (congrArg String.data heq)

set_option maxRecDepth 100000 in
example : generateUniqueFilename foldLib sampleEnv "media1" ≠
    generateUniqueFilename foldLib laterEnv "media1" := by decide

end TagsApi
